import Mathlib

/-!
Shallow embedding of the core of `chumweb` (sailfishos-chum.github.io):
the package data model (`chumweb/package.py`) and the repository loader
algorithms (`chumweb/repo_loader.py`), together with theorems settling the
frozen claims about them.

Python-level behaviour (raised exceptions, `dict`/`set` semantics,
string methods) is modelled explicitly:
  * exceptions become `PyErr` values, functions that can raise return
    `Except PyErr _` or a `_ × Option PyErr` pair when partially applied
    mutations must survive the raise;
  * `dict`s become association lists with python update semantics
    (overwrite in place, insert at the end);
  * `set`s become duplicate-free lists in insertion order (python sets
    are compared ignoring order, so list equality is a sound refinement);
  * `str` methods are re-implemented on `List Char` (`pySplitC`,
    `pyCapitalize`, ...), ASCII-faithful.
-/

/-- Python exceptions that the modelled code can raise.  Only the
constructor (exception class) is tracked, not the message. -/
inductive PyErr where
  | attributeError
  | indexError
  | typeError
  | keyError
  | valueError
  deriving DecidableEq, Repr

/-- Python whitespace test (`str.strip`, regex `\s`), ASCII fragment. -/
def isPySpace (c : Char) : Bool :=
  c = ' ' || c = '\t' || c = '\n' || c = '\r' || c = '\x0b' || c = '\x0c'

/-- `s.split(sep)` for a single-character separator, on `List Char`.
Mirrors python: the result is never empty and keeps empty fields. -/
def splitOnCharL (c : Char) : List Char → List (List Char)
  | [] => [[]]
  | x :: xs =>
    if x = c then [] :: splitOnCharL c xs
    else
      match splitOnCharL c xs with
      | [] => [[x]]
      | p :: ps => (x :: p) :: ps

/-- `s.split(sep)` for a single-character separator (all splits in the
source use `"-"`, `"_"` or `"."`). -/
def pySplitC (s : String) (c : Char) : List String :=
  (splitOnCharL c s.data).map String.mk

/-- Python `str.startswith`. -/
def pyStartsWith (s p : String) : Bool :=
  p.data.isPrefixOf s.data

/-- Python `str.endswith`. -/
def pyEndsWith (s p : String) : Bool :=
  p.data.isSuffixOf s.data

/-- Python `str.removeprefix`. -/
def pyDropPre (s p : String) : String :=
  if pyStartsWith s p then String.mk (s.data.drop p.data.length) else s

/-- Python `str.removesuffix`. -/
def pyDropSuf (s p : String) : String :=
  if pyEndsWith s p then String.mk (s.data.take (s.data.length - p.data.length)) else s

/-- Python `str.capitalize`: first character upper-cased, rest lower-cased. -/
def pyCapitalize (s : String) : String :=
  match s.data with
  | [] => ""
  | c :: cs => String.mk (c.toUpper :: cs.map Char.toLower)

/-- Python `str.replace(a, b)` for single characters (used as
`s.replace(chr(10), chr(32))` in `parse_description`). -/
def pyReplaceC (s : String) (a b : Char) : String :=
  String.mk (s.data.map fun c => if c = a then b else c)

/-- Python `str.lower`, ASCII fragment. -/
def pyLower (s : String) : String :=
  String.mk (s.data.map Char.toLower)

/-- Value of a nonempty all-digit character list. -/
def digitsVal? : List Char → Option Nat
  | [] => none
  | ds =>
    if ds.all Char.isDigit then
      some (ds.foldl (fun acc c => acc * 10 + (c.toNat - '0'.toNat)) 0)
    else none

/-- Python `int(str)`: optional surrounding whitespace, optional sign,
decimal digits.  (Underscore digit separators are not modelled; no input
in this development contains them.)  `none` models a raised `ValueError`. -/
def pyInt? (s : String) : Option Int :=
  match (s.data.dropWhile isPySpace).reverse.dropWhile isPySpace |>.reverse with
  | [] => none
  | '-' :: ds => (digitsVal? ds).map fun n => -(n : Int)
  | '+' :: ds => (digitsVal? ds).map fun n => (n : Int)
  | ds => (digitsVal? ds).map fun n => (n : Int)

/-- A conservative model of python `float(str)` acceptance: optional sign,
digits with at most one dot, at least one digit.  Only the success of the
conversion is ever used (the build timestamp value itself is irrelevant to
every claim), so the numeric value is not computed. -/
def pyFloatOk (s : String) : Bool :=
  let t := (s.data.dropWhile isPySpace).reverse.dropWhile isPySpace |>.reverse
  let t := match t with
    | '-' :: r => r
    | '+' :: r => r
    | r => r
  match splitOnCharL '.' t with
  | [ds] => ¬ ds.isEmpty && ds.all Char.isDigit
  | [ds, fs] => (¬ ds.isEmpty || ¬ fs.isEmpty) && ds.all Char.isDigit && fs.all Char.isDigit
  | _ => false

/-- Association-list lookup, modelling `dict.__getitem__` success
(python dict keys are unique, the first match is the match). -/
def dictGet {κ β : Type} [DecidableEq κ] : List (κ × β) → κ → Option β
  | [], _ => none
  | (k, v) :: rest, k0 => if k = k0 then some v else dictGet rest k0

/-- `d[k] = v` on a python dict: overwrite in place, or append. -/
def pyDictSet {κ β : Type} [DecidableEq κ] : List (κ × β) → κ → β → List (κ × β)
  | [], k0, v0 => [(k0, v0)]
  | (k, v) :: rest, k0, v0 =>
    if k = k0 then (k0, v0) :: rest else (k, v) :: pyDictSet rest k0 v0

/-- `s.add(x)` on a python set, in the insertion-order list model. -/
def setAdd {α : Type} [DecidableEq α] (l : List α) (x : α) : List α :=
  if x ∈ l then l else l ++ [x]

/-- `s.union(t)` on python sets, in the insertion-order list model. -/
def listUnion {α : Type} [DecidableEq α] (l r : List α) : List α :=
  l ++ r.filter fun x => decide (x ∉ l)

/-- Values produced by `yaml.safe_load`.  Mappings are modelled with
string keys (every key the source consults is a string literal). -/
inductive YamlValue where
  | nul
  | bool (b : Bool)
  | int (n : Int)
  | str (s : String)
  | list (xs : List YamlValue)
  | map (kvs : List (String × YamlValue))

/-- Outcome of `yaml.safe_load` on the trailing description paragraph:
a document value, an empty document (python `None`), or a
`ParserError`/`ScannerError`.  The loader itself is an input of the
embedding: theorems quantify over it. -/
inductive YamlOutcome where
  | val (v : YamlValue)
  | empty
  | parseError

/-- The python object stored for a YAML value: `null` loads as `None`.
`none` is python `None`. -/
def asPy (v : YamlValue) : Option YamlValue :=
  match v with
  | .nul => none
  | v => some v

/-- `yaml.get(k)`: `None` when the key is absent or its value is null. -/
def yamlGet (kvs : List (String × YamlValue)) (k : String) : Option YamlValue :=
  (dictGet kvs k).bind asPy

/-- `yaml.get(k, d)`: the default is used only when the key is absent. -/
def yamlGetD (kvs : List (String × YamlValue)) (k : String) (d : Option YamlValue) :
    Option YamlValue :=
  match dictGet kvs k with
  | none => d
  | some v => asPy v

/-- Python truthiness of the objects that can appear here. -/
def pyTruthy : Option YamlValue → Bool
  | none => false
  | some .nul => false
  | some (.bool b) => b
  | some (.int n) => n ≠ 0
  | some (.str s) => ¬ s.isEmpty
  | some (.list xs) => ¬ xs.isEmpty
  | some (.map kvs) => ¬ kvs.isEmpty

/-- Python iteration over an object (`map(f, obj)`): lists yield their
elements, strings yield their characters as one-character strings,
mappings yield their keys; `None`, booleans and integers raise
`TypeError`. -/
def pyIter : Option YamlValue → Except PyErr (List (Option YamlValue))
  | some (.list xs) => .ok (xs.map asPy)
  | some (.str s) => .ok (s.data.map fun c => some (.str (String.mk [c])))
  | some (.map kvs) => .ok (kvs.map fun kv => some (.str kv.1))
  | _ => .error .typeError

/-- Member name / value table of `PackageApplicationCategory`
(`package.py` lines 19-170), in source order.  Note that no member named
`library` exists, although `Package.from_node` and `static_site_gen.py`
both reference `PackageApplicationCategory.library`. -/
def categoryMembers : List (String × String) :=
[
  ("other", "Other"), ("audiovideo", "AudioVideo"), ("audio", "Audio"),
  ("video", "Video"), ("development", "Development"), ("education", "Education"),
  ("game", "Game"), ("graphics", "Graphics"), ("network", "Network"),
  ("office", "Office"), ("science", "Science"), ("settings", "Settings"),
  ("system", "System"), ("utility", "Utility"), ("building", "Building"),
  ("debugger", "Debugger"), ("ide", "IDE"), ("guidesigner", "GUIDesigner"),
  ("profiling", "Profiling"), ("revisioncontrol", "RevisionControl"), ("translation", "Translation"),
  ("calendar", "Calendar"), ("contactmanagement", "ContactManagement"), ("database", "Database"),
  ("dictionary", "Dictionary"), ("chart", "Chart"), ("email", "Email"),
  ("finance", "Finance"), ("flowchart", "FlowChart"), ("pda", "PDA"),
  ("projectmanagement", "ProjectManagement"), ("presentation", "Presentation"), ("spreadsheet", "Spreadsheet"),
  ("wordprocessor", "WordProcessor"), ("twodgraphics", "2DGraphics"), ("vectorgraphics", "VectorGraphics"),
  ("rastergraphics", "RasterGraphics"), ("threedgraphics", "3DGraphics"), ("scanning", "Scanning"),
  ("ocr", "OCR"), ("photography", "Photography"), ("publishing", "Publishing"),
  ("viewer", "Viewer"), ("texttools", "TextTools"), ("desktopsettings", "DesktopSettings"),
  ("hardwaresettings", "HardwareSettings"), ("printing", "Printing"), ("packagemanager", "PackageManager"),
  ("dialup", "Dialup"), ("instantmessaging", "InstantMessaging"), ("chat", "Chat"),
  ("ircclient", "IRCClient"), ("feed", "Feed"), ("filetransfer", "FileTransfer"),
  ("hamradio", "HamRadio"), ("news", "News"), ("p2p", "P2P"),
  ("remoteaccess", "RemoteAccess"), ("telephony", "Telephony"), ("telephonytools", "TelephonyTools"),
  ("videoconference", "VideoConference"), ("webbrowser", "WebBrowser"), ("webdevelopment", "WebDevelopment"),
  ("midi", "Midi"), ("mixer", "Mixer"), ("sequencer", "Sequencer"),
  ("tuner", "Tuner"), ("tv", "TV"), ("audiovideoediting", "AudioVideoEditing"),
  ("player", "Player"), ("recorder", "Recorder"), ("discburning", "DiscBurning"),
  ("actiongame", "ActionGame"), ("adventuregame", "AdventureGame"), ("arcadegame", "ArcadeGame"),
  ("boardgame", "BoardGame"), ("blocksgame", "BlocksGame"), ("cardgame", "CardGame"),
  ("kidsgame", "KidsGame"), ("logicgame", "LogicGame"), ("roleplaying", "RolePlaying"),
  ("shooter", "Shooter"), ("simulation", "Simulation"), ("sportsgame", "SportsGame"),
  ("strategygame", "StrategyGame"), ("art", "Art"), ("construction", "Construction"),
  ("music", "Music"), ("languages", "Languages"), ("artificialintelligence", "ArtificialIntelligence"),
  ("astronomy", "Astronomy"), ("biology", "Biology"), ("chemistry", "Chemistry"),
  ("computerscience", "ComputerScience"), ("datavisualization", "DataVisualization"), ("economy", "Economy"),
  ("electricity", "Electricity"), ("geography", "Geography"), ("geology", "Geology"),
  ("geoscience", "Geoscience"), ("history", "History"), ("humanities", "Humanities"),
  ("imageprocessing", "ImageProcessing"), ("literature", "Literature"), ("maps", "Maps"),
  ("math", "Math"), ("numericalanalysis", "NumericalAnalysis"), ("medicalsoftware", "MedicalSoftware"),
  ("physics", "Physics"), ("robotics", "Robotics"), ("spirituality", "Spirituality"),
  ("sports", "Sports"), ("parallelcomputing", "ParallelComputing"), ("amusement", "Amusement"),
  ("archiving", "Archiving"), ("compression", "Compression"), ("electronics", "Electronics"),
  ("emulator", "Emulator"), ("engineering", "Engineering"), ("filetools", "FileTools"),
  ("filemanager", "FileManager"), ("terminalemulator", "TerminalEmulator"), ("filesystem", "Filesystem"),
  ("monitor", "Monitor"), ("security", "Security"), ("accessibility", "Accessibility"),
  ("calculator", "Calculator"), ("clock", "Clock"), ("texteditor", "TextEditor"),
  ("documentation", "Documentation"), ("adult", "Adult"), ("core", "Core"),
  ("kde", "KDE"), ("gnome", "GNOME"), ("xfce", "XFCE"),
  ("dde", "DDE"), ("gtk", "GTK"), ("qt", "Qt"),
  ("motif", "Motif"), ("java", "Java"), ("consoleonly", "ConsoleOnly"),
  ("screensaver", "Screensaver"), ("trayicon", "TrayIcon"), ("applet", "Applet"),
  ("shell", "Shell")
]

/-- Attribute access `PackageApplicationCategory.<member>`:
`none` models a raised `AttributeError`. -/
def categoryAttr (member : String) : Option String :=
  dictGet categoryMembers member

/-- The string values of the category enum, for the
`PackageApplicationCategory(value)` constructor. -/
def categoryValues : List String :=
  categoryMembers.map Prod.snd

/-- Values of `PackageApplicationType` (`package.py` lines 173-185);
`enum.auto()` on a `StrEnum` yields the lower-cased member name. -/
def packageApplicationTypeValues : List String :=
  ["generic", "console-application", "desktop-application", "addon",
   "codec", "inputmethod", "firmware"]

/-- `PackageVersion` (`package.py` lines 188-203): the three strings come
from `<version>` attributes; when the element is missing all three are
python `None`. -/
structure PackageVersion where
  epoch : Option String
  ver : Option String
  rel : Option String
  deriving DecidableEq, Repr

/-- A changelog record.  Modelled from the spec: the `ChangelogEntry`
class is imported by `repo_loader.py` but its definition is not part of
the sources; spec section 3 describes changelog entries as records of
date, author and text. -/
structure ChangelogEntry where
  date : Option String
  author : Option String
  text : Option String
  deriving DecidableEq, Repr

/-- The non-recursive fields of the `Package` dataclass
(`package.py` lines 206-240), in source order, with the dataclass
defaults.  Values that python stores as arbitrary YAML-derived objects
(`title`, `type`, `icon`, ...) are modelled as `Option YamlValue`
(`none` is python `None`); `RemoteImage(u)` is modelled by the wrapped
url object `u`.  `updated` stores the raw `time@file` attribute string
(the claims never consult the timestamp value); `none` stands for the
dataclass default epoch timestamp.  The five per-architecture maps are
keyed by `Option String` because `try_get_str("arch")` can legitimately
produce python `None`, which python happily uses as a dict key. -/
structure PackageData where
  name : Option String
  summary : Option String := none
  description : Option String := none
  title : Option YamlValue := none
  icon : Option YamlValue := none
  version : Option PackageVersion := none
  developer_name : Option YamlValue := none
  packager_name : Option YamlValue := none
  type : Option YamlValue := some (.str "generic")
  categories : List String := ["Other"]
  screenshots : List (Option YamlValue) := []
  links : List (String × YamlValue) := []
  url : Option String := none
  licence : Option String := none
  markdown_url : Option YamlValue := none
  repo_url : Option YamlValue := none
  packaging_repo_url : Option YamlValue := none
  debug_yaml : Option String := none
  debug_yaml_errors : List PyErr := []
  updated : Option String := none
  repos : List String := []
  archs : List (Option String) := []
  download_size : List (Option String × Option String) := []
  install_size : List (Option String × Option String) := []
  download_url : List (Option String × Option String) := []
  checksum_type : List (Option String × Option String) := []
  checksum_value : List (Option String × Option String) := []
  changelog_entries : Option (List ChangelogEntry) := none

/-- A `Package`: the dataclass fields plus the two recursive references
`debuginfo_package` / `debugsource_package` (`Self | None`). -/
inductive Package where
  | mk (data : PackageData) (debuginfo_package : Option Package)
       (debugsource_package : Option Package)

def Package.data : Package → PackageData
  | .mk d _ _ => d

def Package.debuginfo_package : Package → Option Package
  | .mk _ i _ => i

def Package.debugsource_package : Package → Option Package
  | .mk _ _ s => s

def Package.name (p : Package) : Option String := p.data.name

def Package.categories (p : Package) : List String := p.data.categories

def Package.type (p : Package) : Option YamlValue := p.data.type

def Package.description (p : Package) : Option String := p.data.description

def Package.debug_yaml_errors (p : Package) : List PyErr := p.data.debug_yaml_errors

/-- `name_to_title` (`package.py` lines 273-283).  Raises `IndexError`
(`name_parts[0]` on an empty list) when the name is exactly `harbour`
or `openrepos`. -/
def name_to_title (name : String) : Except PyErr String :=
  let name_parts := pySplitC name '-'
  let name_parts :=
    match name_parts with
    | p0 :: rest => if p0 = "harbour" || p0 = "openrepos" then rest else name_parts
    | [] => name_parts
  match name_parts with
  | [] => .error .indexError
  | p0 :: rest =>
    let name_parts :=
      if pyStartsWith p0 "lib" then (pyDropPre p0 "lib") :: rest ++ ["(library)"]
      else p0 :: rest
    let name_parts :=
      match name_parts.getLast? with
      | some l => if l = "devel" then name_parts.dropLast ++ ["(development files)"] else name_parts
      | none => name_parts
    .ok (" ".intercalate (name_parts.map pyCapitalize))

/-- Is the tail of the text at the end of the string or just before a
newline (regex `$` in multiline mode)? -/
def atLineEnd : List Char → Bool
  | [] => true
  | c :: _ => c = '\n'

/-- The length of the regex match of `^\s*$` starting at the current
position (given by `rest`), `none` when the pattern does not match
there.  The match is greedy with backtracking: the longest whitespace
run length whose end position is at the text end or just before a
newline. -/
def blankMatchLen (rest : List Char) : Option Nat :=
  let run := (rest.takeWhile isPySpace).length
  (List.range (run + 1)).reverse.find? fun k => atLineEnd (rest.drop k)

/-- Worker for `re.split` with the pattern `(?m)^\s*$`
(`parse_description`, `package.py` line 294).  Walks the text; at each
line-start position tries the blank-line match.  A zero-width match
splits and then advances one character (python forbids an empty match
immediately after an empty match); a positive match consumes the matched
whitespace.  `fuel` decreases on every step and `length + 1` is always
sufficient. -/
def splitBlankGo : Nat → List Char → Bool → List Char → List (List Char) → List (List Char)
  | 0, _, _, cur, acc => (cur.reverse :: acc).reverse
  | _ + 1, [], lineStart, cur, acc =>
    if lineStart then
      -- zero-width match at the very end: split, final piece is empty
      (([] : List Char) :: cur.reverse :: acc).reverse
    else
      (cur.reverse :: acc).reverse
  | fuel + 1, c :: rest, lineStart, cur, acc =>
    match (if lineStart then blankMatchLen (c :: rest) else none) with
    | none => splitBlankGo fuel rest (c = '\n') (c :: cur) acc
    | some 0 =>
      -- zero-width match: split here, the next piece starts with `c`
      splitBlankGo fuel rest (c = '\n') [c] (cur.reverse :: acc)
    | some (k + 1) =>
      let dropped := (c :: rest).take (k + 1)
      splitBlankGo fuel ((c :: rest).drop (k + 1)) (dropped.getLastD ' ' = '\n') []
        (cur.reverse :: acc)

/-- `re.split(pattern, s)` for the pattern `(?m)^\s*$`. -/
def splitBlank (s : String) : List String :=
  (splitBlankGo (s.data.length + 1) s.data true [] []).map String.mk

/-- `piece.strip()` is nonempty. -/
def hasText (s : String) : Bool :=
  s.data.any fun c => ¬ isPySpace c

/-- The paragraph list of `parse_description` (`package.py` line 294):
blank-line split with whitespace-only pieces discarded. -/
def descParagraphs (s : String) : List String :=
  (splitBlank s).filter hasText

/-- Line 342 of `package.py`: paragraphs joined with a blank line after
replacing every newline inside a piece by a space. -/
def joinParagraphs (ps : List String) : String :=
  "\n\n".intercalate (ps.map fun s => pyReplaceC s '\n' ' ')

/-- `PackageApplicationCategory(x)` on one element produced by the
`map` in line 338: a valid category value string succeeds, any other
hashable non-member raises `ValueError` (caught by the caller), an
unhashable object (list/dict) raises `TypeError` from the set insertion
(not caught). -/
def toCategory : Option YamlValue → Except PyErr String
  | some (.str s) => if s ∈ categoryValues then .ok s else .error .valueError
  | some (.list _) => .error .typeError
  | some (.map _) => .error .typeError
  | _ => .error .valueError

/-- `set(...)` of the converted categories: python sets deduplicate;
the model keeps first-insertion order. -/
def dedupKeepFirst (l : List String) : List String :=
  go [] l
where
  go (seen : List String) : List String → List String
    | [] => []
    | x :: xs => if x ∈ seen then go seen xs else x :: go (seen ++ [x]) xs

/-- The `Custom` handling of `parse_description` (`package.py` lines
319-330): a list of mappings is flattened by python `dict |=` merging;
the result must then support `.get`, else `AttributeError`. -/
def customToDict : Option YamlValue → Except PyErr (List (String × YamlValue))
  | some (.list items) =>
    items.foldlM
      (fun acc it =>
        match asPy it with
        | some (.map kvs) => .ok (kvs.foldl (fun m kv => pyDictSet m kv.1 kv.2) acc)
        | _ => .error .attributeError)
      []
  | some (.map kvs) => .ok kvs
  | _ => .error .attributeError

/-- Sequencing of python statements that can raise: run the
continuation only when the previous statements did not raise; an
exception aborts with the partially mutated state. -/
def pthen (s : PackageData × Option PyErr)
    (f : PackageData → PackageData × Option PyErr) : PackageData × Option PyErr :=
  match s with
  | (d, none) => f d
  | r => r

/-- `p.screenshots = list(map(RemoteImage, yaml.get("Screenshots", [])))`
(`package.py` line 315): iterating a non-iterable raises `TypeError`. -/
def screenshotsStep (kvs : List (String × YamlValue)) (d : PackageData) :
    PackageData × Option PyErr :=
  match pyIter (yamlGetD kvs "Screenshots" (some (.list []))) with
  | .error e => (d, some e)
  | .ok shots => ({ d with screenshots := shots }, none)

/-- The `Custom` block (`package.py` lines 319-330). -/
def customStepF (kvs : List (String × YamlValue)) (d : PackageData) :
    PackageData × Option PyErr :=
  match dictGet kvs "Custom" with
  | none => (d, none)
  | some raw =>
    match customToDict (asPy raw) with
    | .error e => (d, some e)
    | .ok custom =>
      ({ d with repo_url := yamlGet custom "Repo",
                packaging_repo_url := yamlGet custom "PackagingRepo",
                markdown_url := yamlGet custom "DescriptionMD" }, none)

/-- The `links` assignment with its `try/except AttributeError`
(`package.py` lines 332-335): never propagates an exception. -/
def linksStep (kvs : List (String × YamlValue)) (d : PackageData) : PackageData :=
  let linksVal :=
    if pyTruthy (yamlGet kvs "Links") then yamlGet kvs "Links"
    else yamlGetD kvs "Url" (some (.map []))
  match linksVal with
  | some (.map lkvs) =>
    { d with links := lkvs.foldl (fun m kv => pyDictSet m (pyLower kv.1) kv.2) [] }
  | _ => { d with debug_yaml_errors := d.debug_yaml_errors ++ [.attributeError] }

/-- The `categories` assignment with its
`try/except (KeyError, ValueError)` (`package.py` lines 337-340):
a `TypeError` from `map()` or from an unhashable element is not caught
and propagates. -/
def categoriesStep (kvs : List (String × YamlValue)) (d : PackageData) :
    PackageData × Option PyErr :=
  match dictGet kvs "Categories" with
  | none => ({ d with debug_yaml_errors := d.debug_yaml_errors ++ [.keyError] }, none)
  | some raw =>
    match pyIter (asPy raw) with
    | .error e => (d, some e)
    | .ok elems =>
      match elems.mapM toCategory with
      | .ok cats => ({ d with categories := dedupKeepFirst cats }, none)
      | .error .valueError =>
        ({ d with debug_yaml_errors := d.debug_yaml_errors ++ [.valueError] }, none)
      | .error e => (d, some e)

/-- The mapping branch of `parse_description` after the `title` and
`type` assignments (`package.py` lines 313-342): icon, screenshots,
developer/packager names, the `Custom` block, `links`, `categories`,
and finally the rejoined description. -/
def parseDescMappingRest (kvs : List (String × YamlValue)) (d : PackageData)
    (remaining : List String) : PackageData × Option PyErr :=
  let icon_url :=
    if pyTruthy (yamlGet kvs "PackageIcon") then yamlGet kvs "PackageIcon"
    else yamlGet kvs "Icon"
  let d := { d with icon := if pyTruthy icon_url then icon_url else none }
  pthen (screenshotsStep kvs d) fun d =>
    let d := { d with developer_name := yamlGet kvs "DeveloperName" }
    let d := { d with packager_name := yamlGet kvs "PackagedBy" }
    pthen (customStepF kvs d) fun d =>
      let d := linksStep kvs d
      pthen (categoriesStep kvs d) fun d =>
        ({ d with description := some (joinParagraphs remaining) }, none)

/-- The mapping branch of `parse_description` (`package.py` lines
309-342), starting from the state `d` (which already has `debug_yaml`
set): the `title` fallback chain (which can itself raise through
`name_to_title`), the unvalidated `type` assignment, then the rest of
the extraction. -/
def parseDescMapping (kvs : List (String × YamlValue)) (d : PackageData)
    (remaining : List String) (name : String) : PackageData × Option PyErr :=
  -- p.title = yaml.get("Title") or yaml.get("PackageName") or name_to_title(name)
  let titleStep : Except PyErr (Option YamlValue) :=
    if pyTruthy (yamlGet kvs "Title") then .ok (yamlGet kvs "Title")
    else if pyTruthy (yamlGet kvs "PackageName") then .ok (yamlGet kvs "PackageName")
    else (name_to_title name).map fun t => some (.str t)
  match titleStep with
  | .error e => (d, some e)
  | .ok title =>
  let d := { d with title := title }
  -- p.type = yaml.get("Type")
  let d := { d with type := yamlGet kvs "Type" }
  parseDescMappingRest kvs d remaining

/-- Lines 298-342 of `package.py`, after the last paragraph has been
popped: record it in `debug_yaml`, load it, and dispatch on the loaded
value.  `type(yaml) in [str, NoneType]` pushes the paragraph back as
prose; a mapping enters the extraction branch; any other value
(list/int/bool) raises `AttributeError` at `yaml.get("Title")` before
any assignment. -/
def parseDescLast (yamlLoad : String → YamlOutcome) (d : PackageData)
    (remaining : List String) (yaml_part name : String) : PackageData × Option PyErr :=
  let d := { d with debug_yaml := some yaml_part }
  let yaml : Option YamlValue :=
    match yamlLoad yaml_part with
    | .val v => some v
    | .empty => none
    | .parseError => none
  match yaml with
  | none =>
    ({ d with description := some (joinParagraphs (remaining ++ [yaml_part])) }, none)
  | some .nul =>
    ({ d with description := some (joinParagraphs (remaining ++ [yaml_part])) }, none)
  | some (.str _) =>
    ({ d with description := some (joinParagraphs (remaining ++ [yaml_part])) }, none)
  | some (.map kvs) => parseDescMapping kvs d remaining name
  | some _ => (d, some .attributeError)

/-- `parse_description` (`package.py` lines 285-342), parameterised by
the YAML loader.  The description argument is the raw python object: a
missing `<description>` element passes `None`, on which `re.split`
raises `TypeError`.  Returns the updated state and the escaped
exception, if any. -/
def parse_description (yamlLoad : String → YamlOutcome) (d : PackageData)
    (description : Option String) (name : String) : PackageData × Option PyErr :=
  match description with
  | none => (d, some .typeError)
  | some s =>
    match (descParagraphs s).getLast? with
    | none => (d, none)
    | some yaml_part =>
      parseDescLast yamlLoad d ((descParagraphs s).dropLast) yaml_part name

/-- A `<package>` XML node, abstracted to exactly what
`Package.from_node` consults: for a tag name, the text content of the
first matching element (`none` models both a missing element and a
missing first child), and the attribute table of the first matching
element (`none` when no element matches; `getAttribute` returns the
empty string for absent attributes). -/
structure XmlNode where
  tagText : String → Option String
  tagAttrs : String → Option (String → String)

/-- `try_get_str` (`package.py` lines 249-254). -/
def try_get_str (node : XmlNode) (name : String) : Option String :=
  node.tagText name

/-- `try_get_attribute_tags` (`package.py` lines 256-266). -/
def try_get_attribute_tags (node : XmlNode) (name : String) (args : List String) :
    List (Option String) :=
  match node.tagAttrs name with
  | some attrs => args.map fun a => some (attrs a)
  | none => args.map fun _ => none

/-- `try_get_version` (`package.py` lines 268-271). -/
def try_get_version (node : XmlNode) : PackageVersion :=
  let t := try_get_attribute_tags node "version" ["epoch", "ver", "rel"]
  { epoch := t.getD 0 none, ver := t.getD 1 none, rel := t.getD 2 none }

/-- `Package.from_node` (`package.py` lines 242-370), parameterised by
the YAML loader used inside `parse_description`.  Raise points, in
python statement order: `name_to_title(p.name)` (`AttributeError` on a
missing name, `IndexError` on a name that is exactly `harbour` or
`openrepos`), the build-time conversion
`float(try_get_attribute_tags("time", "file")[0])` (`TypeError` on a
missing element, `ValueError` on a malformed number), and the final
`lib*` rule, which evaluates `PackageApplicationCategory.library` — a
member the enum does not define, so it raises `AttributeError` for every
name starting with `lib`. -/
def Package.from_node (yamlLoad : String → YamlOutcome) (node : XmlNode)
    (repo_arch : String) : Except PyErr Package := do
  let arch := try_get_str node "arch"
  let d : PackageData := { name := try_get_str node "name" }
  let d := { d with repos := setAdd d.repos repo_arch }
  let d := { d with archs := setAdd d.archs arch }
  let d := { d with summary := try_get_str node "summary" }
  let d := { d with version := some (try_get_version node) }
  let d := { d with url := try_get_str node "url" }
  let nm ← match d.name with
    | none => throw PyErr.attributeError   -- None.split("-")
    | some nm => pure nm
  let t ← name_to_title nm
  let d := { d with title := some (.str t) }
  let d := { d with licence := try_get_str node "rpm:license" }
  let d ← match (try_get_attribute_tags node "time" ["file"]).getD 0 none with
    | none => throw PyErr.typeError        -- float(None)
    | some ts =>
      if pyFloatOk ts then pure { d with updated := some ts }
      else throw PyErr.valueError          -- float("...")
  let size := try_get_attribute_tags node "size" ["package", "installed"]
  let d := { d with download_size := pyDictSet d.download_size arch (size.getD 0 none) }
  let d := { d with install_size := pyDictSet d.install_size arch (size.getD 1 none) }
  let loc := (try_get_attribute_tags node "location" ["href"]).getD 0 none
  let d := { d with download_url := pyDictSet d.download_url arch loc }
  let ctype := (try_get_attribute_tags node "checksum" ["type"]).getD 0 none
  let d := { d with checksum_type := pyDictSet d.checksum_type arch ctype }
  let d := { d with checksum_value := pyDictSet d.checksum_value arch (try_get_str node "checksum") }
  -- try: parse_description(...) except Exception as e: ...
  let desc := try_get_str node "description"
  let d :=
    match parse_description yamlLoad d desc nm with
    | (d, none) => d
    | (d, some e) => { d with description := desc,
                              debug_yaml_errors := d.debug_yaml_errors ++ [e] }
  -- if p.name.startswith("lib") and PackageApplicationCategory.library not in p.categories
  let d ←
    if pyStartsWith nm "lib" then
      match categoryAttr "library" with
      | none => throw PyErr.attributeError
      | some lib =>
        if lib ∈ d.categories then pure d
        else pure { d with categories := setAdd d.categories lib }
    else pure d
  return Package.mk d none none

/-- One iteration of the `for arch in other_pkg.archs` loop of
`Package.merge_arch` (`package.py` lines 376-383), in python statement
order: the `repos` union is assigned first, then the five
per-architecture map entries are read from `other` (a missing key
raises `KeyError`, leaving the mutations already made in place) and
written, then the architecture is added. -/
def mergeStep (other : PackageData) (p : PackageData) (arch : Option String) :
    PackageData × Option PyErr :=
  let p := { p with repos := listUnion p.repos other.repos }
  match dictGet other.download_size arch with
  | none => (p, some .keyError)
  | some v1 =>
  let p := { p with download_size := pyDictSet p.download_size arch v1 }
  match dictGet other.install_size arch with
  | none => (p, some .keyError)
  | some v2 =>
  let p := { p with install_size := pyDictSet p.install_size arch v2 }
  match dictGet other.download_url arch with
  | none => (p, some .keyError)
  | some v3 =>
  let p := { p with download_url := pyDictSet p.download_url arch v3 }
  match dictGet other.checksum_type arch with
  | none => (p, some .keyError)
  | some v4 =>
  let p := { p with checksum_type := pyDictSet p.checksum_type arch v4 }
  match dictGet other.checksum_value arch with
  | none => (p, some .keyError)
  | some v5 =>
  let p := { p with checksum_value := pyDictSet p.checksum_value arch v5 }
  ({ p with archs := setAdd p.archs arch }, none)

/-- The loop of `Package.merge_arch`, folding `mergeStep` over
`other.archs`; a raise aborts the loop with the partial state. -/
def mergeGo (other : PackageData) : PackageData → List (Option String) →
    PackageData × Option PyErr
  | p, [] => (p, none)
  | p, a :: rest =>
    match mergeStep other p a with
    | (p, none) => mergeGo other p rest
    | r => r

/-- `Package.merge_arch` (`package.py` lines 372-383).  Returns the
mutated `self` together with the escaped exception, if any. -/
def Package.merge_arch (self other : Package) : Package × Option PyErr :=
  match self with
  | .mk d di ds =>
    match mergeGo other.data d other.data.archs with
    | (d, e) => (.mk d di ds, e)

/-- `ver_nos` inside `filter_newest_repos` (`repo_loader.py` lines
69-71): `int(part)` failures are `none`. -/
def ver_nos (repo_name : String) : List (Option Int) :=
  (pySplitC ((pySplitC repo_name '_').headD "") '.').map pyInt?

/-- The `for (l, r) in zip(ver_l, ver_r)` loop of `cmp_repo_version`:
`true` keeps the left operand. -/
def zipKeepLeft : List Int → List Int → Bool
  | [], _ => true
  | _, [] => true
  | l :: ls, r :: rs => if l > r then true else if l < r then false else zipKeepLeft ls rs

/-- Sequence a list of parsed components, mirroring the list
comprehension `[int(part) for part in ver.split(".")]`, which raises on
the first unparsable part. -/
def seqIntsOpt : List (Option Int) → Option (List Int)
  | [] => some []
  | none :: _ => none
  | some x :: rest => (seqIntsOpt rest).map fun xs => x :: xs

/-- `cmp_repo_version` (`repo_loader.py` lines 63-84): compares two
repository names and returns the newer one (the left one on a tie).
`int()` failures raise `ValueError`; python evaluates `ver_nos(left)`
fully before `ver_nos(right)`. -/
def cmp_repo_version (left right : String) : Except PyErr String :=
  match seqIntsOpt (ver_nos left) with
  | none => .error .valueError
  | some ver_l =>
    match seqIntsOpt (ver_nos right) with
    | none => .error .valueError
    | some ver_r => .ok (if zipKeepLeft ver_l ver_r then left else right)

/-- `filter_newest_repos` (`repo_loader.py` lines 54-88).
`functools.reduce` on an empty list raises `TypeError`. -/
def filter_newest_repos (repos : List String) : Except PyErr (List String) := do
  match repos with
  | [] => throw PyErr.typeError
  | r0 :: rest =>
    let winner ← rest.foldlM (fun acc r => cmp_repo_version acc r) r0
    let newest_version := (pySplitC winner '_').headD "" ++ "_"
    return repos.filter fun repo => pyStartsWith repo newest_version

/-- Overwrite the value stored under a present key, leaving the rest of
the python dict untouched (`pkgs[base_name].debuginfo_package = pkg`
mutates the stored object in place). -/
def dictSetExisting {κ β : Type} [DecidableEq κ] : List (κ × β) → κ → β → List (κ × β)
  | [], _, _ => []
  | (k, v) :: rest, k0, v0 =>
    if k = k0 then (k0, v0) :: rest else (k, v) :: dictSetExisting rest k0 v0

def Package.withDebugInfo (p : Package) (dbg : Package) : Package :=
  match p with
  | .mk d _ ds => .mk d (some dbg) ds

def Package.withDebugSource (p : Package) (dbg : Package) : Package :=
  match p with
  | .mk d di _ => .mk d di (some dbg)

/-- One iteration of the `for (name, pkg) in pkgs.items()` loop of
`link_debug_packages` (`repo_loader.py` lines 221-228).  The value
`pkg` iterated over is the object currently stored under `name` (the
dict is never structurally modified, objects are mutated in place, so
the current map value is the faithful reading).  A `-debuginfo` /
`-debugsource` name whose base is missing raises `KeyError`. -/
def linkStep (m : List (String × Package)) (name : String) :
    Except PyErr (List (String × Package)) :=
  match dictGet m name with
  | none => .error .keyError
  | some pkg =>
    if pyEndsWith name "-debuginfo" then
      match dictGet m (pyDropSuf name "-debuginfo") with
      | none => .error .keyError
      | some base =>
        .ok (dictSetExisting m (pyDropSuf name "-debuginfo") (base.withDebugInfo pkg))
    else if pyEndsWith name "-debugsource" then
      match dictGet m (pyDropSuf name "-debugsource") with
      | none => .error .keyError
      | some base =>
        .ok (dictSetExisting m (pyDropSuf name "-debugsource") (base.withDebugSource pkg))
    else .ok m

/-- `link_debug_packages` (`repo_loader.py` lines 214-228): iterates the
names of the by-name map in order, mutating the map entries. -/
def link_debug_packages (pkgs : List (String × Package)) :
    Except PyErr (List (String × Package)) :=
  (pkgs.map Prod.fst).foldlM linkStep pkgs

/-- The changelog-attachment phase of `read_repo_data`
(`repo_loader.py` lines 203-209): for every `<package name=...>` node of
`other.xml` (modelled by its name and the entries
`ChangelogEntry.from_node` extracts from it), `pkgs[name]` is indexed
directly — a name absent from the primary map raises `KeyError`. -/
def attach_changelogs (pkgs : List (String × Package))
    (others : List (String × List ChangelogEntry)) :
    Except PyErr (List (String × Package)) :=
  others.foldlM
    (fun m ne =>
      match dictGet m ne.1 with
      | none => .error .keyError
      | some p =>
        match p with
        | .mk d di ds =>
          .ok (dictSetExisting m ne.1 (.mk { d with changelog_entries := some ne.2 } di ds)))
    pkgs

/-! ## Concrete test fixtures -/

/-- A well-formed `<package>` node in the sense of spec section 6: all
required elements (`name`, `arch`, `version`, `checksum`, `summary`,
`description`, `url`, `rpm:license`, `time@file`, `size`, `location`)
are present, parameterised by the package name and description text. -/
def nodeFor (name desc : String) : XmlNode :=
  { tagText := fun tag =>
      if tag = "name" then some name
      else if tag = "description" then some desc
      else if tag = "summary" then some "A summary"
      else if tag = "arch" then some "aarch64"
      else if tag = "url" then some "https://example.org/app"
      else if tag = "rpm:license" then some "MIT"
      else if tag = "checksum" then some "abc123"
      else none,
    tagAttrs := fun tag =>
      if tag = "version" then
        some fun a => if a = "epoch" then "0" else if a = "ver" then "1.0" else if a = "rel" then "1" else ""
      else if tag = "time" then some fun a => if a = "file" then "1700000000" else ""
      else if tag = "size" then
        some fun a => if a = "package" then "1000" else if a = "installed" then "2000" else ""
      else if tag = "location" then some fun a => if a = "href" then "x.rpm" else ""
      else if tag = "checksum" then some fun a => if a = "type" then "sha256" else ""
      else none }

/-- A YAML loader for descriptions whose trailing paragraph is plain
prose: every document fails to parse. -/
def yamlLoadPE : String → YamlOutcome := fun _ => .parseError

/-- A YAML loader under which the paragraph `Categories: [Game]`
(as produced from the description used in the C2 test) parses as a
mapping that sets the categories explicitly. -/
def ylGameCats : String → YamlOutcome := fun s =>
  if s = "\nCategories: [Game]" then .val (.map [("Categories", .list [.str "Game"])])
  else .parseError

/-- A YAML loader under which the paragraph `Title: Foo` parses as a
mapping without a `Type` key. -/
def ylTitleFoo : String → YamlOutcome := fun s =>
  if s = "Title: Foo" then .val (.map [("Title", .str "Foo")]) else .parseError

/-- A YAML loader under which the paragraph `A\nB` parses as the plain
scalar string `A B` (YAML line folding), as PyYAML does. -/
def ylScalar : String → YamlOutcome := fun s =>
  if s = "A\nB" then .val (.str "A B") else .parseError

/-! ## C1, C2: the `lib*` rule evaluates a non-existent enum member -/

/-- C1: the claim states that `Package.from_node` never fails outright
on a well-formed `<package>` node.  It does fail: for every name
starting with `lib`, line 367 of `package.py` evaluates
`PackageApplicationCategory.library`, a member the enum does not define
(see `categoryMembers`), raising `AttributeError` before `from_node`
can return.  This theorem evaluates the builder at such a failing
input: a fully well-formed node named `libfoo`. -/
theorem c1_from_node_fails_on_lib_name :
    Package.from_node yamlLoadPE (nodeFor "libfoo" "Hello.") "4.5.0.24_aarch64" =
      .error .attributeError := by
  rfl

/-- C2: the claim states that every package whose name starts with
`lib` has `library` among its categories.  Instead, the category
auto-add rule crashes: `PackageApplicationCategory` has no member named
`library` (`categoryAttr "library" = none`), so `from_node` raises
`AttributeError` for every `lib*` name — even when the embedded YAML
set `Categories` explicitly, as in this input. -/
theorem c2_lib_category_rule_crashes :
    Package.from_node ylGameCats (nodeFor "libbar" "App.\n\nCategories: [Game]")
        "4.5.0.24_aarch64" = .error .attributeError ∧
    categoryAttr "library" = none := by
  exact ⟨rfl, rfl⟩

/-! ## C8: name-derived title fallback -/

/-- The name-to-title algorithm as described by the (amended) spec
wording: split on dashes, drop a leading `harbour`/`openrepos` segment,
strip a `lib` prefix of the first remaining segment while appending a
`(library)` segment, then replace a final `devel` segment — a step that
can only fire when the `(library)` segment was not appended, since the
appended segment is last — and capitalize-join.  Stated over list heads
and tails rather than the source's pattern matches. -/
def nameToTitleAmended (name : String) : Except PyErr String :=
  let segs := pySplitC name '-'
  let segs := if segs.headD "" = "harbour" ∨ segs.headD "" = "openrepos" then segs.tail else segs
  if segs = [] then .error .indexError
  else
    let first := segs.headD ""
    let segs :=
      if pyStartsWith first "lib" then pyDropPre first "lib" :: segs.tail ++ ["(library)"]
      else segs
    let segs :=
      if segs.getLast? = some "devel" then segs.dropLast ++ ["(development files)"]
      else segs
    .ok (" ".intercalate (segs.map pyCapitalize))

/-- The devel-replacement step written as an `if` on `getLast?` agrees
with the source's pattern-match formulation. -/
theorem develReplaceSwitch (segs : List String) :
    (if segs.getLast? = some "devel" then segs.dropLast ++ ["(development files)"] else segs) =
      (match segs.getLast? with
       | some l => if l = "devel" then segs.dropLast ++ ["(development files)"] else segs
       | none => segs) := by
  cases h : segs.getLast? with
  | none => simp
  | some l =>
    by_cases hl : l = "devel" <;> simp [hl]

/-- C8 (counterexample): the claim's example says
`name_to_title "libfoo-devel" = "Foo (library) (development files)"`.
The code appends `(library)` before testing the last segment for
`devel`, so the `devel` replacement never fires for `lib*` names, and
the result is `"Foo Devel (library)"`. -/
theorem c8_counterexample_libfoo_devel :
    name_to_title "libfoo-devel" = .ok "Foo Devel (library)" ∧
    name_to_title "libfoo-devel" ≠ .ok "Foo (library) (development files)" := by
  refine ⟨rfl, fun h => ?_⟩
  have h2 : "Foo Devel (library)" = "Foo (library) (development files)" := Except.ok.inj h
  exact absurd h2 (by decide)

/-- C8 (amended): the name-derived title fallback splits on dashes,
drops a leading `harbour`/`openrepos` segment, strips a `lib` prefix of
the first remaining segment while appending `(library)`, replaces a
final `devel` segment with `(development files)` (which therefore never
happens when `(library)` was appended), and capitalize-joins; in
particular `harbour-myapp` gives `Myapp` and `libfoo-devel` gives
`Foo Devel (library)`. -/
theorem c8_name_to_title_amended :
    (∀ name, name_to_title name = nameToTitleAmended name) ∧
    name_to_title "harbour-myapp" = .ok "Myapp" ∧
    name_to_title "libfoo-devel" = .ok "Foo Devel (library)" := by
  refine ⟨fun name => ?_, rfl, rfl⟩
  unfold name_to_title nameToTitleAmended
  cases e : pySplitC name '-' with
  | nil => simp
  | cons p0 rest =>
    by_cases h0 : p0 = "harbour" ∨ p0 = "openrepos"
    · rcases h0 with h0 | h0 <;> subst h0 <;>
        cases rest with
        | nil => simp
        | cons q qs => simp only [List.headD_cons, List.tail_cons]; simp; rw [develReplaceSwitch]
    · have hb : (p0 = "harbour" || p0 = "openrepos") = false := by
        simp only [Bool.or_eq_false_iff, decide_eq_false_iff_not]
        exact ⟨fun h => h0 (Or.inl h), fun h => h0 (Or.inr h)⟩
      simp [hb, h0]
      rw [develReplaceSwitch]

/-! ## C9 (counterexample): `type` is taken verbatim from YAML -/

/-- C9 (counterexample): the claim says `type` is always one of the
application-type enum values, defaulting to `generic`.  But line 311 of
`package.py` assigns `p.type = yaml.get("Type")` unvalidated: for a
description whose trailing mapping has no `Type` key the field becomes
python `None` — not `generic`, and not a member of the enum. -/
theorem c9_counterexample_type_none :
    (Package.from_node ylTitleFoo (nodeFor "myapp" "Title: Foo") "4.5.0.24_aarch64").toOption.map
        Package.type = some none ∧
    (none : Option YamlValue) ≠ some (YamlValue.str "generic") := by
  exact ⟨rfl, by simp⟩

/-! ## Dictionary / set model lemmas -/

theorem dictGet_pyDictSet_self {κ β : Type} [DecidableEq κ] (m : List (κ × β)) (k : κ) (v : β) :
    dictGet (pyDictSet m k v) k = some v := by
  induction m with
  | nil => simp [pyDictSet, dictGet]
  | cons kv rest ih =>
    obtain ⟨k1, v1⟩ := kv
    by_cases h : k1 = k
    · subst h; simp [pyDictSet, dictGet]
    · simp [pyDictSet, dictGet, h, ih]

theorem dictGet_pyDictSet_ne {κ β : Type} [DecidableEq κ] (m : List (κ × β)) (k k' : κ) (v : β)
    (h : k' ≠ k) : dictGet (pyDictSet m k v) k' = dictGet m k' := by
  induction m with
  | nil =>
    have hne : ¬ (k = k') := fun hh => h hh.symm
    simp [pyDictSet, dictGet, hne]
  | cons kv rest ih =>
    obtain ⟨k1, v1⟩ := kv
    by_cases h1 : k1 = k
    · subst h1
      have hne : ¬ (k1 = k') := fun hh => h hh.symm
      simp [pyDictSet, dictGet, hne]
    · by_cases h2 : k1 = k'
      · subst h2; simp [pyDictSet, dictGet, h1]
      · simp [pyDictSet, dictGet, h1, h2, ih]

theorem pyDictSet_eq_self {κ β : Type} [DecidableEq κ] (m : List (κ × β)) (k : κ) (v : β)
    (h : dictGet m k = some v) : pyDictSet m k v = m := by
  induction m with
  | nil => simp [dictGet] at h
  | cons kv rest ih =>
    obtain ⟨k1, v1⟩ := kv
    by_cases h1 : k1 = k
    · subst h1
      simp [dictGet] at h
      simp [pyDictSet, h]
    · simp [dictGet, h1] at h
      simp [pyDictSet, h1, ih h]

theorem mem_setAdd {α : Type} [DecidableEq α] (l : List α) (x y : α) :
    y ∈ setAdd l x ↔ y ∈ l ∨ y = x := by
  unfold setAdd
  by_cases h : x ∈ l
  · simp [h]
    intro hy; subst hy; exact h
  · simp [h]

theorem setAdd_eq_self {α : Type} [DecidableEq α] (l : List α) (x : α) (h : x ∈ l) :
    setAdd l x = l := by
  simp [setAdd, h]

theorem mem_listUnion {α : Type} [DecidableEq α] (l r : List α) (x : α) :
    x ∈ listUnion l r ↔ x ∈ l ∨ x ∈ r := by
  unfold listUnion
  simp only [List.mem_append, List.mem_filter, decide_eq_true_eq]
  constructor
  · rintro (h | ⟨h, _⟩)
    · exact Or.inl h
    · exact Or.inr h
  · rintro (h | h)
    · exact Or.inl h
    · by_cases hl : x ∈ l
      · exact Or.inl hl
      · exact Or.inr ⟨h, hl⟩

theorem listUnion_eq_self {α : Type} [DecidableEq α] (l r : List α) (h : ∀ x ∈ r, x ∈ l) :
    listUnion l r = l := by
  unfold listUnion
  have : r.filter (fun x => decide (x ∉ l)) = [] := by
    rw [List.filter_eq_nil_iff]
    intro a ha
    simpa using h a ha
  rw [this, List.append_nil]

/-! ## C5: merge_arch touches only the per-architecture state -/

/-- All fields of the package state outside `repos`, `archs` and the
five per-architecture maps agree. -/
def framesEq (p q : PackageData) : Prop :=
  q.name = p.name ∧ q.summary = p.summary ∧ q.description = p.description ∧
  q.title = p.title ∧ q.icon = p.icon ∧ q.version = p.version ∧
  q.developer_name = p.developer_name ∧ q.packager_name = p.packager_name ∧
  q.type = p.type ∧ q.categories = p.categories ∧ q.screenshots = p.screenshots ∧
  q.links = p.links ∧ q.url = p.url ∧ q.licence = p.licence ∧
  q.markdown_url = p.markdown_url ∧ q.repo_url = p.repo_url ∧
  q.packaging_repo_url = p.packaging_repo_url ∧ q.debug_yaml = p.debug_yaml ∧
  q.debug_yaml_errors = p.debug_yaml_errors ∧ q.updated = p.updated ∧
  q.changelog_entries = p.changelog_entries

theorem framesEq_refl (p : PackageData) : framesEq p p := by
  unfold framesEq
  exact ⟨rfl, rfl, rfl, rfl, rfl, rfl, rfl, rfl, rfl, rfl, rfl, rfl, rfl, rfl, rfl, rfl,
         rfl, rfl, rfl, rfl, rfl⟩

theorem framesEq_trans {p q r : PackageData} (h1 : framesEq p q) (h2 : framesEq q r) :
    framesEq p r := by
  unfold framesEq at h1 h2 ⊢
  obtain ⟨a1, a2, a3, a4, a5, a6, a7, a8, a9, a10, a11, a12, a13, a14, a15, a16, a17, a18,
          a19, a20, a21⟩ := h1
  obtain ⟨b1, b2, b3, b4, b5, b6, b7, b8, b9, b10, b11, b12, b13, b14, b15, b16, b17, b18,
          b19, b20, b21⟩ := h2
  exact ⟨b1.trans a1, b2.trans a2, b3.trans a3, b4.trans a4, b5.trans a5, b6.trans a6,
         b7.trans a7, b8.trans a8, b9.trans a9, b10.trans a10, b11.trans a11, b12.trans a12,
         b13.trans a13, b14.trans a14, b15.trans a15, b16.trans a16, b17.trans a17,
         b18.trans a18, b19.trans a19, b20.trans a20, b21.trans a21⟩

theorem mergeStep_framesEq (o p : PackageData) (a : Option String) :
    framesEq p (mergeStep o p a).1 := by
  unfold mergeStep
  cases dictGet o.download_size a with
  | none => exact framesEq_refl _
  | some v1 =>
    cases dictGet o.install_size a with
    | none => exact framesEq_refl _
    | some v2 =>
      cases dictGet o.download_url a with
      | none => exact framesEq_refl _
      | some v3 =>
        cases dictGet o.checksum_type a with
        | none => exact framesEq_refl _
        | some v4 =>
          cases dictGet o.checksum_value a with
          | none => exact framesEq_refl _
          | some v5 => exact framesEq_refl _

theorem mergeGo_framesEq (o : PackageData) (l : List (Option String)) :
    ∀ p, framesEq p (mergeGo o p l).1 := by
  induction l with
  | nil => intro p; exact framesEq_refl p
  | cons a rest ih =>
    intro p
    unfold mergeGo
    cases hs : mergeStep o p a with
    | mk p1 e =>
      have hf1 : framesEq p p1 := by
        have := mergeStep_framesEq o p a
        rw [hs] at this
        exact this
      cases e with
      | none => exact framesEq_trans hf1 (ih p1)
      | some err => exact hf1

/-- C5: `merge_arch(target, source)` modifies only `target.archs`,
`target.repos` and the five per-architecture maps; every other field of
`target` — including the debug-package references — is returned
unchanged, whether or not the merge raises. -/
theorem c5_merge_arch_frame (A B : Package) :
    ((A.merge_arch B).1).name = A.name ∧
    ((A.merge_arch B).1).data.summary = A.data.summary ∧
    ((A.merge_arch B).1).data.description = A.data.description ∧
    ((A.merge_arch B).1).data.title = A.data.title ∧
    ((A.merge_arch B).1).data.icon = A.data.icon ∧
    ((A.merge_arch B).1).data.version = A.data.version ∧
    ((A.merge_arch B).1).data.developer_name = A.data.developer_name ∧
    ((A.merge_arch B).1).data.packager_name = A.data.packager_name ∧
    ((A.merge_arch B).1).data.type = A.data.type ∧
    ((A.merge_arch B).1).data.categories = A.data.categories ∧
    ((A.merge_arch B).1).data.screenshots = A.data.screenshots ∧
    ((A.merge_arch B).1).data.links = A.data.links ∧
    ((A.merge_arch B).1).data.url = A.data.url ∧
    ((A.merge_arch B).1).data.licence = A.data.licence ∧
    ((A.merge_arch B).1).data.markdown_url = A.data.markdown_url ∧
    ((A.merge_arch B).1).data.repo_url = A.data.repo_url ∧
    ((A.merge_arch B).1).data.packaging_repo_url = A.data.packaging_repo_url ∧
    ((A.merge_arch B).1).data.debug_yaml = A.data.debug_yaml ∧
    ((A.merge_arch B).1).data.debug_yaml_errors = A.data.debug_yaml_errors ∧
    ((A.merge_arch B).1).data.updated = A.data.updated ∧
    ((A.merge_arch B).1).data.changelog_entries = A.data.changelog_entries ∧
    ((A.merge_arch B).1).debuginfo_package = A.debuginfo_package ∧
    ((A.merge_arch B).1).debugsource_package = A.debugsource_package := by
  obtain ⟨d, di, ds⟩ := A
  have hf := mergeGo_framesEq B.data B.data.archs d
  cases hm : mergeGo B.data d B.data.archs with
  | mk d1 e =>
    rw [hm] at hf
    obtain ⟨a1, a2, a3, a4, a5, a6, a7, a8, a9, a10, a11, a12, a13, a14, a15, a16, a17, a18,
            a19, a20, a21⟩ := hf
    simp only [Package.merge_arch, hm]
    exact ⟨a1, a2, a3, a4, a5, a6, a7, a8, a9, a10, a11, a12, a13, a14, a15, a16, a17, a18,
           a19, a20, a21, rfl, rfl⟩

/-! ## C4: merge_arch is idempotent per architecture -/

/-- Architecture `a` has an entry in each of `source`'s five
per-architecture maps (so `merge_arch` will not raise `KeyError`). -/
def archPresent (o : PackageData) (a : Option String) : Prop :=
  (dictGet o.download_size a).isSome ∧ (dictGet o.install_size a).isSome ∧
  (dictGet o.download_url a).isSome ∧ (dictGet o.checksum_type a).isSome ∧
  (dictGet o.checksum_value a).isSome

/-- After a merge, `p` carries `o`'s entries for architecture `a`. -/
def archPost (p o : PackageData) (a : Option String) : Prop :=
  dictGet p.download_size a = dictGet o.download_size a ∧
  dictGet p.install_size a = dictGet o.install_size a ∧
  dictGet p.download_url a = dictGet o.download_url a ∧
  dictGet p.checksum_type a = dictGet o.checksum_type a ∧
  dictGet p.checksum_value a = dictGet o.checksum_value a ∧
  a ∈ p.archs

theorem mergeStep_ok (o p : PackageData) (a : Option String) (ha : archPresent o a) :
    (mergeStep o p a).2 = none ∧
    archPost (mergeStep o p a).1 o a ∧
    (∀ x, x ∈ p.repos ∨ x ∈ o.repos → x ∈ (mergeStep o p a).1.repos) ∧
    (∀ b, archPost p o b → archPost (mergeStep o p a).1 o b) := by
  obtain ⟨h1, h2, h3, h4, h5⟩ := ha
  obtain ⟨v1, hv1⟩ := Option.isSome_iff_exists.mp h1
  obtain ⟨v2, hv2⟩ := Option.isSome_iff_exists.mp h2
  obtain ⟨v3, hv3⟩ := Option.isSome_iff_exists.mp h3
  obtain ⟨v4, hv4⟩ := Option.isSome_iff_exists.mp h4
  obtain ⟨v5, hv5⟩ := Option.isSome_iff_exists.mp h5
  have hstep : mergeStep o p a =
      ({ p with repos := listUnion p.repos o.repos,
                download_size := pyDictSet p.download_size a v1,
                install_size := pyDictSet p.install_size a v2,
                download_url := pyDictSet p.download_url a v3,
                checksum_type := pyDictSet p.checksum_type a v4,
                checksum_value := pyDictSet p.checksum_value a v5,
                archs := setAdd p.archs a }, none) := by
    unfold mergeStep
    rw [hv1, hv2, hv3, hv4, hv5]
  rw [hstep]
  refine ⟨rfl, ?_, ?_, ?_⟩
  · exact ⟨(dictGet_pyDictSet_self _ _ _).trans hv1.symm,
           (dictGet_pyDictSet_self _ _ _).trans hv2.symm,
           (dictGet_pyDictSet_self _ _ _).trans hv3.symm,
           (dictGet_pyDictSet_self _ _ _).trans hv4.symm,
           (dictGet_pyDictSet_self _ _ _).trans hv5.symm,
           (mem_setAdd _ _ _).mpr (Or.inr rfl)⟩
  · intro x hx
    exact (mem_listUnion _ _ _).mpr hx
  · intro b hb
    by_cases hba : b = a
    · subst hba
      exact ⟨(dictGet_pyDictSet_self _ _ _).trans hv1.symm,
             (dictGet_pyDictSet_self _ _ _).trans hv2.symm,
             (dictGet_pyDictSet_self _ _ _).trans hv3.symm,
             (dictGet_pyDictSet_self _ _ _).trans hv4.symm,
             (dictGet_pyDictSet_self _ _ _).trans hv5.symm,
             (mem_setAdd _ _ _).mpr (Or.inr rfl)⟩
    · obtain ⟨b1, b2, b3, b4, b5, b6⟩ := hb
      exact ⟨(dictGet_pyDictSet_ne _ _ _ _ hba).trans b1,
             (dictGet_pyDictSet_ne _ _ _ _ hba).trans b2,
             (dictGet_pyDictSet_ne _ _ _ _ hba).trans b3,
             (dictGet_pyDictSet_ne _ _ _ _ hba).trans b4,
             (dictGet_pyDictSet_ne _ _ _ _ hba).trans b5,
             (mem_setAdd _ _ _).mpr (Or.inl b6)⟩

theorem mergeGo_ok (o : PackageData) (l : List (Option String))
    (h : ∀ a ∈ l, archPresent o a) : ∀ p : PackageData,
    (mergeGo o p l).2 = none ∧
    (∀ a ∈ l, archPost (mergeGo o p l).1 o a) ∧
    (∀ x ∈ p.repos, x ∈ (mergeGo o p l).1.repos) ∧
    (l ≠ [] → ∀ x ∈ o.repos, x ∈ (mergeGo o p l).1.repos) ∧
    (∀ b, archPost p o b → archPost (mergeGo o p l).1 o b) := by
  induction l with
  | nil =>
    intro p
    exact ⟨rfl, by simp, fun x hx => hx, fun hne => absurd rfl hne, fun b hb => hb⟩
  | cons a rest ih =>
    intro p
    have ha := h a (List.mem_cons_self a rest)
    have hrest : ∀ a ∈ rest, archPresent o a := fun a' ha' => h a' (List.mem_cons_of_mem _ ha')
    obtain ⟨hs2, hspost, hsrepos, hspres⟩ := mergeStep_ok o p a ha
    cases hs : mergeStep o p a with
    | mk p1 e =>
      rw [hs] at hs2 hspost hsrepos hspres
      cases e with
      | some err => exact absurd hs2 (by simp)
      | none =>
        have hgo : mergeGo o p (a :: rest) = mergeGo o p1 rest := by
          have hred : mergeGo o p (a :: rest) =
              (match mergeStep o p a with
               | (q, none) => mergeGo o q rest
               | r => r) := rfl
          rw [hred, hs]
        obtain ⟨i1, i2, i3, i4, i5⟩ := ih hrest p1
        rw [hgo]
        refine ⟨i1, ?_, ?_, ?_, ?_⟩
        · intro a' ha'
          rcases List.mem_cons.mp ha' with ha' | ha'
          · subst ha'
            exact i5 a' hspost
          · exact i2 a' ha'
        · intro x hx
          exact i3 x (hsrepos x (Or.inl hx))
        · intro _ x hx
          exact i3 x (hsrepos x (Or.inr hx))
        · intro b hb
          exact i5 b (hspres b hb)

theorem mergeStep_stable (o p : PackageData) (a : Option String)
    (hpost : archPost p o a) (hpres : archPresent o a)
    (hrepos : ∀ x ∈ o.repos, x ∈ p.repos) : mergeStep o p a = (p, none) := by
  obtain ⟨h1, h2, h3, h4, h5⟩ := hpres
  obtain ⟨v1, hv1⟩ := Option.isSome_iff_exists.mp h1
  obtain ⟨v2, hv2⟩ := Option.isSome_iff_exists.mp h2
  obtain ⟨v3, hv3⟩ := Option.isSome_iff_exists.mp h3
  obtain ⟨v4, hv4⟩ := Option.isSome_iff_exists.mp h4
  obtain ⟨v5, hv5⟩ := Option.isSome_iff_exists.mp h5
  obtain ⟨p1, p2, p3, p4, p5, p6⟩ := hpost
  have hstep : mergeStep o p a =
      ({ p with repos := listUnion p.repos o.repos,
                download_size := pyDictSet p.download_size a v1,
                install_size := pyDictSet p.install_size a v2,
                download_url := pyDictSet p.download_url a v3,
                checksum_type := pyDictSet p.checksum_type a v4,
                checksum_value := pyDictSet p.checksum_value a v5,
                archs := setAdd p.archs a }, none) := by
    unfold mergeStep
    rw [hv1, hv2, hv3, hv4, hv5]
  rw [hstep, listUnion_eq_self _ _ hrepos,
      pyDictSet_eq_self _ _ _ (p1.trans hv1), pyDictSet_eq_self _ _ _ (p2.trans hv2),
      pyDictSet_eq_self _ _ _ (p3.trans hv3), pyDictSet_eq_self _ _ _ (p4.trans hv4),
      pyDictSet_eq_self _ _ _ (p5.trans hv5), setAdd_eq_self _ _ p6]

theorem mergeGo_stable (o : PackageData) :
    ∀ (l : List (Option String)) (p : PackageData),
    (∀ a ∈ l, archPost p o a ∧ archPresent o a) →
    (l ≠ [] → ∀ x ∈ o.repos, x ∈ p.repos) →
    mergeGo o p l = (p, none) := by
  intro l
  induction l with
  | nil => intro p _ _; rfl
  | cons a rest ih =>
    intro p h hrepos
    have ha := h a (List.mem_cons_self a rest)
    have hs : mergeStep o p a = (p, none) :=
      mergeStep_stable o p a ha.1 ha.2 (hrepos (by simp))
    have hgo : mergeGo o p (a :: rest) = mergeGo o p rest := by
      have hred : mergeGo o p (a :: rest) =
          (match mergeStep o p a with
           | (q, none) => mergeGo o q rest
           | r => r) := rfl
      rw [hred, hs]
    rw [hgo]
    exact ih p (fun a' ha' => h a' (List.mem_cons_of_mem _ ha')) (fun _ => hrepos (by simp))

/-- C4: when every architecture in `source.archs` has entries in all
five of `source`'s per-architecture maps, `merge_arch(target, source)`
does not raise, and applying it a second time returns the
once-merged record unchanged (and again does not raise). -/
theorem c4_merge_arch_idempotent (A B : Package)
    (h : ∀ a ∈ B.data.archs, archPresent B.data a) :
    (A.merge_arch B).2 = none ∧
    ((A.merge_arch B).1).merge_arch B = ((A.merge_arch B).1, none) := by
  obtain ⟨d, di, ds⟩ := A
  obtain ⟨hg1, hg2, _, hg4, _⟩ := mergeGo_ok B.data B.data.archs h d
  cases hm : mergeGo B.data d B.data.archs with
  | mk d1 e =>
    rw [hm] at hg1 hg2 hg4
    cases e with
    | some err => exact absurd hg1 (by simp)
    | none =>
      have hstable : mergeGo B.data d1 B.data.archs = (d1, none) := by
        apply mergeGo_stable
        · intro a ha
          exact ⟨hg2 a ha, h a ha⟩
        · intro hne x hx
          exact hg4 hne x hx
      constructor
      · simp only [Package.merge_arch, hm]
      · simp only [Package.merge_arch, hm, hstable]

/-! ## C3, C9: parse_description behaviour -/

/-- `type(yaml) in [str, NoneType]` after the load (a parse failure and
an empty or null document both leave python `None`). -/
def isStrOrNone : YamlOutcome → Bool
  | .empty => true
  | .parseError => true
  | .val (.str _) => true
  | .val .nul => true
  | _ => false

/-- Reduction of `parse_description` in the prose case: when the last
paragraph loads as a string or as `None`, it is pushed back and the
only changes are `debug_yaml` and the rejoined `description`. -/
theorem parse_description_prose (yamlLoad : String → YamlOutcome) (d : PackageData)
    (s name yp : String) (hlast : (descParagraphs s).getLast? = some yp)
    (hyl : isStrOrNone (yamlLoad yp) = true) :
    parse_description yamlLoad d (some s) name =
      ({ d with debug_yaml := some yp,
                description :=
                  some (joinParagraphs ((descParagraphs s).dropLast ++ [yp])) }, none) := by
  have hred : parse_description yamlLoad d (some s) name =
      (match (descParagraphs s).getLast? with
       | none => (d, none)
       | some yaml_part => parseDescLast yamlLoad d ((descParagraphs s).dropLast) yaml_part name) :=
    rfl
  rw [hred, hlast]
  show parseDescLast yamlLoad d ((descParagraphs s).dropLast) yp name = _
  unfold parseDescLast
  cases hy : yamlLoad yp with
  | empty => rfl
  | parseError => rfl
  | val v =>
    rw [hy] at hyl
    cases v with
    | nul => rfl
    | str t => rfl
    | bool b => simp [isStrOrNone] at hyl
    | int n => simp [isStrOrNone] at hyl
    | list xs => simp [isStrOrNone] at hyl
    | map kvs => simp [isStrOrNone] at hyl

/-- Reduction of `parse_description` in the mapping case. -/
theorem parse_description_mapping (yamlLoad : String → YamlOutcome) (d : PackageData)
    (s name yp : String) (kvs : List (String × YamlValue))
    (hlast : (descParagraphs s).getLast? = some yp)
    (hmap : yamlLoad yp = .val (.map kvs)) :
    parse_description yamlLoad d (some s) name =
      parseDescMapping kvs { d with debug_yaml := some yp } (descParagraphs s).dropLast name := by
  have hred : parse_description yamlLoad d (some s) name =
      (match (descParagraphs s).getLast? with
       | none => (d, none)
       | some yaml_part => parseDescLast yamlLoad d ((descParagraphs s).dropLast) yaml_part name) :=
    rfl
  rw [hred, hlast]
  show parseDescLast yamlLoad d ((descParagraphs s).dropLast) yp name = _
  unfold parseDescLast
  rw [hmap]

/-- Inversion of `pthen` on a non-raising run. -/
theorem pthen_ok (s : PackageData × Option PyErr)
    (f : PackageData → PackageData × Option PyErr) (d' : PackageData)
    (h : pthen s f = (d', none)) : ∃ dm, s = (dm, none) ∧ f dm = (d', none) := by
  obtain ⟨dm, e⟩ := s
  cases e with
  | none => exact ⟨dm, rfl, h⟩
  | some err => exact absurd (congrArg Prod.snd h) (by simp [pthen])

theorem screenshotsStep_type (kvs : List (String × YamlValue)) (d d' : PackageData)
    (e : Option PyErr) (h : screenshotsStep kvs d = (d', e)) : d'.type = d.type := by
  unfold screenshotsStep at h
  split at h
  · injection h with h1 h2; rw [← h1]
  · injection h with h1 h2; rw [← h1]

theorem customStepF_type (kvs : List (String × YamlValue)) (d d' : PackageData)
    (e : Option PyErr) (h : customStepF kvs d = (d', e)) : d'.type = d.type := by
  unfold customStepF at h
  split at h
  · injection h with h1 h2; rw [← h1]
  · split at h
    · injection h with h1 h2; rw [← h1]
    · injection h with h1 h2; rw [← h1]

theorem linksStep_type (kvs : List (String × YamlValue)) (d : PackageData) :
    (linksStep kvs d).type = d.type := by
  unfold linksStep
  split <;> (dsimp only; split <;> rfl)

theorem categoriesStep_type (kvs : List (String × YamlValue)) (d d' : PackageData)
    (e : Option PyErr) (h : categoriesStep kvs d = (d', e)) : d'.type = d.type := by
  unfold categoriesStep at h
  split at h
  · injection h with h1 h2; rw [← h1]
  · split at h
    · injection h with h1 h2; rw [← h1]
    · split at h
      · injection h with h1 h2; rw [← h1]
      · injection h with h1 h2; rw [← h1]
      · injection h with h1 h2; rw [← h1]

/-- The tail of the mapping branch never touches `type`, and when it
completes without raising it has set `description` to the rejoined
remaining paragraphs. -/
theorem parseDescMappingRest_ok (kvs : List (String × YamlValue)) (rem : List String)
    (d d' : PackageData) (h : parseDescMappingRest kvs d rem = (d', none)) :
    d'.type = d.type ∧ d'.description = some (joinParagraphs rem) := by
  obtain ⟨d1, hs1, h1⟩ := pthen_ok _ _ _ h
  obtain ⟨d2, hs2, h2⟩ := pthen_ok _ _ _ h1
  obtain ⟨d3, hs3, h3⟩ := pthen_ok _ _ _ h2
  have hd' : d' = { d3 with description := some (joinParagraphs rem) } :=
    (congrArg Prod.fst h3).symm
  subst hd'
  constructor
  · show d3.type = d.type
    have t3 : d3.type = (linksStep kvs d2).type := categoriesStep_type _ _ _ _ hs3
    have t2 : (linksStep kvs d2).type = d2.type := linksStep_type _ _
    have t1 := customStepF_type _ _ _ _ hs2
    have t1' : d2.type = d1.type := t1
    have t0 := screenshotsStep_type _ _ _ _ hs1
    have t0' : d1.type = d.type := t0
    exact ((t3.trans t2).trans t1').trans t0'

  · rfl

/-- When the mapping branch completes without raising, it has set
`description` to the rejoined remaining paragraphs and `type` to the
raw `Type` value of the mapping. -/
theorem parseDescMapping_ok_fields (kvs : List (String × YamlValue)) (d : PackageData)
    (remaining : List String) (name : String) (d' : PackageData)
    (h : parseDescMapping kvs d remaining name = (d', none)) :
    d'.description = some (joinParagraphs remaining) ∧ d'.type = yamlGet kvs "Type" := by
  unfold parseDescMapping at h
  repeat' split at h
  all_goals
    first
      | (obtain ⟨ht, hd⟩ := parseDescMappingRest_ok _ _ _ _ h
         exact ⟨hd, ht⟩)
      | exact Option.noConfusion (congrArg Prod.snd h)
      | (rcases hnt : name_to_title name with e | t <;> rw [hnt] at h
         · exact Option.noConfusion (congrArg Prod.snd h)
         · obtain ⟨ht, hd⟩ := parseDescMappingRest_ok _ _ _ _ h
           exact ⟨hd, ht⟩)

/-- C3 (counterexample): the claim says that when the last paragraph
parses as a plain scalar string, `description` is left equal to the
original full text.  It is not: line 342 of `package.py` rejoins the
paragraph pieces after replacing every newline inside each piece by a
space, so the description `A` newline `B` (one paragraph, loading as
the folded scalar `A B`) comes back as `A B`, not as the original
two-line text. -/
theorem c3_counterexample_newlines_collapsed :
    ((parse_description ylScalar ({ name := some "pkg" } : PackageData)
        (some "A\nB") "pkg").1).description = some "A B" ∧
    some "A\nB" ≠ some "A B" := by
  refine ⟨rfl, ?_⟩
  intro hcontra
  exact absurd (Option.some.inj hcontra) (by decide)

/-- C3 (amended): when the last paragraph does not load as a mapping
(plain scalar string, null/empty, or a parse failure), extraction
pushes it back and the *only* changes are `debug_yaml` and
`description`, the latter set to all paragraph pieces rejoined with one
blank line between pieces and every newline inside a piece replaced by
a space (so the original text is preserved up to that normalisation,
nothing dropped, and all app-metadata fields keep their prior values);
when a trailing mapping is consumed and extraction completes without
raising, `description` is the same rejoining of the remaining pieces. -/
theorem c3_description_rejoined (yamlLoad : String → YamlOutcome) (d : PackageData)
    (s name yp : String) (hlast : (descParagraphs s).getLast? = some yp) :
    (isStrOrNone (yamlLoad yp) = true →
      parse_description yamlLoad d (some s) name =
        ({ d with debug_yaml := some yp,
                  description :=
                    some (joinParagraphs ((descParagraphs s).dropLast ++ [yp])) }, none)) ∧
    (∀ kvs d', yamlLoad yp = .val (.map kvs) →
      parse_description yamlLoad d (some s) name = (d', none) →
      d'.description = some (joinParagraphs (descParagraphs s).dropLast)) := by
  constructor
  · intro hyl
    exact parse_description_prose yamlLoad d s name yp hlast hyl
  · intro kvs d' hmap hok
    rw [parse_description_mapping yamlLoad d s name yp kvs hlast hmap] at hok
    exact (parseDescMapping_ok_fields _ _ _ _ _ hok).1

/-- C3 (witness): the amended theorem applied to the concrete prose
description `Intro.` blank line `More text.` under a loader that fails
to parse the trailing paragraph. -/
theorem c3_description_rejoined_witness :
    (descParagraphs "Intro.\n\nMore text.").getLast? = some "\nMore text." ∧
    isStrOrNone (yamlLoadPE "\nMore text.") = true ∧
    parse_description yamlLoadPE ({ name := some "pkg" } : PackageData)
        (some "Intro.\n\nMore text.") "pkg" =
      ({ ({ name := some "pkg" } : PackageData) with
          debug_yaml := some "\nMore text.",
          description :=
            some (joinParagraphs
              ((descParagraphs "Intro.\n\nMore text.").dropLast ++ ["\nMore text."])) }, none) := by
  refine ⟨rfl, rfl, ?_⟩
  exact (c3_description_rejoined yamlLoadPE ({ name := some "pkg" } : PackageData)
    "Intro.\n\nMore text." "pkg" "\nMore text." rfl).1 rfl

/-- C9 (amended): `type` defaults to the string value `generic` of the
application-type enum; a description with no consumed mapping leaves it
unchanged; and when a trailing mapping is consumed (and extraction
completes without raising), `type` is overwritten verbatim with the
mapping's raw `Type` value — python `None` when the key is absent or
null — with no validation against the enum. -/
theorem c9_type_unvalidated :
    (({ name := none } : PackageData).type = some (YamlValue.str "generic")) ∧
    (∀ (yamlLoad : String → YamlOutcome) (d : PackageData) (s name yp : String),
      (descParagraphs s).getLast? = some yp →
      isStrOrNone (yamlLoad yp) = true →
      ((parse_description yamlLoad d (some s) name).1).type = d.type) ∧
    (∀ (yamlLoad : String → YamlOutcome) (d : PackageData) (s name yp : String)
        (kvs : List (String × YamlValue)) (d' : PackageData),
      (descParagraphs s).getLast? = some yp →
      yamlLoad yp = .val (.map kvs) →
      parse_description yamlLoad d (some s) name = (d', none) →
      d'.type = yamlGet kvs "Type") := by
  refine ⟨rfl, ?_, ?_⟩
  · intro yamlLoad d s name yp hlast hyl
    rw [parse_description_prose yamlLoad d s name yp hlast hyl]
  · intro yamlLoad d s name yp kvs d' hlast hmap hok
    rw [parse_description_mapping yamlLoad d s name yp kvs hlast hmap] at hok
    exact (parseDescMapping_ok_fields _ _ _ _ _ hok).2

/-- C9 (witness): the amended theorem applied to the concrete
description `Title: Foo`, whose mapping has no `Type` key: the
resulting `type` is the raw lookup, python `None`. -/
theorem c9_type_unvalidated_witness :
    (descParagraphs "Title: Foo").getLast? = some "Title: Foo" ∧
    ylTitleFoo "Title: Foo" = .val (.map [("Title", YamlValue.str "Foo")]) ∧
    ((parse_description ylTitleFoo ({ name := some "myapp" } : PackageData)
        (some "Title: Foo") "myapp").1).type =
      yamlGet [("Title", YamlValue.str "Foo")] "Type" := by
  refine ⟨rfl, rfl, ?_⟩
  exact c9_type_unvalidated.2.2 ylTitleFoo ({ name := some "myapp" } : PackageData)
    "Title: Foo" "myapp" "Title: Foo" [("Title", YamlValue.str "Foo")] _ rfl rfl rfl

/-! ## C6: newest-repository filter -/

theorem seqIntsOpt_eq (l : List (Option Int)) (h : ∀ o ∈ l, o.isSome) :
    seqIntsOpt l = some (l.map fun o => o.getD 0) := by
  induction l with
  | nil => rfl
  | cons o rest ih =>
    cases o with
    | none => exact absurd (h none (List.mem_cons_self _ _)) (by simp)
    | some x =>
      have := ih fun o ho => h o (List.mem_cons_of_mem _ ho)
      simp [seqIntsOpt, this]

/-- The version prefix of a repository identifier
(`repo_name.split("_")[0]`). -/
def repoVersion (r : String) : String :=
  (pySplitC r '_').headD ""

/-- The parsed version components, with 0 standing in for a component
that fails to parse (never reached under the well-formedness
hypothesis). -/
def verInts (r : String) : List Int :=
  (ver_nos r).map fun o => o.getD 0

/-- The comparison of `cmp_repo_version`, as a pure selection. -/
def newerOf (l r : String) : String :=
  if zipKeepLeft (verInts l) (verInts r) then l else r

/-- The repository the `reduce` call settles on. -/
def newestRepo : List String → String
  | [] => ""
  | r0 :: rest => rest.foldl newerOf r0

/-- A well-formed repository identifier: it contains an underscore
(separating `{version}` from `{arch}`) and every dot-separated
component of the version parses as an integer. -/
def repoWF (r : String) : Prop :=
  r.data.any (fun c => c = '_') = true ∧ ∀ o ∈ ver_nos r, o.isSome

theorem underscore_decomp (l : List Char) (h : l.any (fun c => c = '_') = true) :
    ∃ vd ad, l = vd ++ '_' :: ad ∧ '_' ∉ vd := by
  induction l with
  | nil => simp at h
  | cons c cs ih =>
    by_cases hc : c = '_'
    · subst hc
      exact ⟨[], cs, rfl, by simp⟩
    · have h2 : cs.any (fun c => c = '_') = true := by
        simp only [List.any_cons, Bool.or_eq_true, decide_eq_true_eq] at h
        rcases h with h | h
        · exact absurd h hc
        · exact h
      obtain ⟨vd, ad, hl, hnv⟩ := ih h2
      refine ⟨c :: vd, ad, by simp [hl], ?_⟩
      intro hmem
      rcases List.mem_cons.mp hmem with hmem | hmem
      · exact hc hmem.symm
      · exact hnv hmem

theorem splitOnCharL_before (c : Char) (vd ad : List Char) (h : c ∉ vd) :
    splitOnCharL c (vd ++ c :: ad) = vd :: splitOnCharL c ad := by
  induction vd with
  | nil => simp [splitOnCharL]
  | cons x xs ih =>
    have hx : ¬ (x = c) := fun hh => h (hh ▸ List.mem_cons_self _ _)
    have ih2 := ih fun hm => h (List.mem_cons_of_mem _ hm)
    have hstep : splitOnCharL c ((x :: xs) ++ c :: ad) =
        (match splitOnCharL c (xs ++ c :: ad) with
         | [] => [[x]]
         | p :: ps => (x :: p) :: ps) := by
      simp only [List.cons_append, splitOnCharL, if_neg hx]
      rfl
    rw [hstep, ih2]

theorem repoVersion_eq (r : String) (vd ad : List Char) (hr : r.data = vd ++ '_' :: ad)
    (hv : '_' ∉ vd) : repoVersion r = String.mk vd := by
  unfold repoVersion pySplitC
  rw [hr, splitOnCharL_before _ _ _ hv]
  rfl

theorem underscore_prefix_iff (wd : List Char) : ∀ (vd ad : List Char), '_' ∉ wd → '_' ∉ vd →
    ((wd ++ ['_']) <+: (vd ++ '_' :: ad) ↔ wd = vd) := by
  induction wd with
  | nil =>
    intro vd ad _ hv
    cases vd with
    | nil => simp
    | cons v vs =>
      simp only [List.nil_append]
      constructor
      · intro h
        obtain ⟨hh, -⟩ := List.cons_prefix_cons.mp h
        exact absurd (hh ▸ List.mem_cons_self v vs : ('_' : Char) ∈ v :: vs) hv
      · intro h
        exact absurd h (by simp)
  | cons w ws ih =>
    intro vd ad hw hv
    cases vd with
    | nil =>
      simp only [List.nil_append]
      constructor
      · intro h
        obtain ⟨hh, -⟩ := List.cons_prefix_cons.mp h
        exact absurd (hh ▸ List.mem_cons_self w ws : ('_' : Char) ∈ w :: ws) hw
      · intro h
        exact absurd h (by simp)
    | cons v vs =>
      have hw2 : '_' ∉ ws := fun hm => hw (List.mem_cons_of_mem _ hm)
      have hv2 : '_' ∉ vs := fun hm => hv (List.mem_cons_of_mem _ hm)
      constructor
      · intro h
        obtain ⟨hh, ht⟩ := List.cons_prefix_cons.mp h
        have := (ih vs ad hw2 hv2).mp ht
        rw [hh, this]
      · intro h
        injection h with hh ht
        subst hh
        subst ht
        exact List.cons_prefix_cons.mpr ⟨rfl, (ih _ ad hw2 hw2).mpr rfl⟩

theorem startsWith_iff_sameVersion (r w : String)
    (hr : r.data.any (fun c => c = '_') = true)
    (hw : w.data.any (fun c => c = '_') = true) :
    pyStartsWith r (repoVersion w ++ "_") = decide (repoVersion r = repoVersion w) := by
  obtain ⟨vd, ad, hrd, hrv⟩ := underscore_decomp r.data hr
  obtain ⟨wd, bd, hwd, hwv⟩ := underscore_decomp w.data hw
  have hRv : repoVersion r = String.mk vd := repoVersion_eq r vd ad hrd hrv
  have hWv : repoVersion w = String.mk wd := repoVersion_eq w wd bd hwd hwv
  have hdata : (repoVersion w ++ "_").data = wd ++ ['_'] := by
    rw [hWv, String.data_append]
  rw [Bool.eq_iff_iff]
  constructor
  · intro h
    have hpre : (wd ++ ['_']) <+: r.data := by
      unfold pyStartsWith at h
      rw [List.isPrefixOf_iff_prefix] at h
      rw [hdata] at h
      exact h
    rw [hrd] at hpre
    have hvw := (underscore_prefix_iff wd vd ad hwv hrv).mp hpre
    rw [hRv, hWv, hvw]
    exact decide_eq_true rfl
  · intro h
    have h2 : repoVersion r = repoVersion w := of_decide_eq_true h
    rw [hRv, hWv] at h2
    have heq : vd = wd := congrArg String.data h2
    unfold pyStartsWith
    rw [List.isPrefixOf_iff_prefix, hdata, hrd]
    exact (underscore_prefix_iff wd vd ad hwv hrv).mpr heq.symm

theorem cmp_repo_version_ok (l r : String)
    (hl : ∀ o ∈ ver_nos l, o.isSome) (hr : ∀ o ∈ ver_nos r, o.isSome) :
    cmp_repo_version l r = .ok (newerOf l r) := by
  unfold cmp_repo_version
  rw [seqIntsOpt_eq _ hl, seqIntsOpt_eq _ hr]
  rfl

theorem foldM_cmp (rest : List String) : ∀ r0 : String,
    (∀ o ∈ ver_nos r0, o.isSome) → (∀ r ∈ rest, ∀ o ∈ ver_nos r, o.isSome) →
    rest.foldlM (fun acc r => cmp_repo_version acc r) r0 = .ok (rest.foldl newerOf r0) := by
  induction rest with
  | nil => intro r0 _ _; rfl
  | cons r rs ih =>
    intro r0 h0 hrs
    have hr : ∀ o ∈ ver_nos r, o.isSome := hrs r (List.mem_cons_self _ _)
    have hstep := cmp_repo_version_ok r0 r h0 hr
    have hnext : ∀ o ∈ ver_nos (newerOf r0 r), o.isSome := by
      intro o ho
      unfold newerOf at ho
      by_cases hz : zipKeepLeft (verInts r0) (verInts r) = true
      · rw [if_pos hz] at ho
        exact h0 o ho
      · rw [if_neg hz] at ho
        exact hr o ho
    have hred : (r :: rs).foldlM (fun acc r => cmp_repo_version acc r) r0 =
        (cmp_repo_version r0 r).bind
          (fun acc => rs.foldlM (fun acc r => cmp_repo_version acc r) acc) := by
      rfl
    rw [hred, hstep]
    show rs.foldlM (fun acc r => cmp_repo_version acc r) (newerOf r0 r) = _
    rw [ih (newerOf r0 r) hnext fun a ha o ho => hrs a (List.mem_cons_of_mem _ ha) o ho]
    rfl

theorem newestRepo_mem (rest : List String) : ∀ r0 : String, rest.foldl newerOf r0 ∈ r0 :: rest := by
  induction rest with
  | nil => intro r0; simp
  | cons r rs ih =>
    intro r0
    have hred : (r :: rs).foldl newerOf r0 = rs.foldl newerOf (newerOf r0 r) := rfl
    rw [hred]
    have hm := ih (newerOf r0 r)
    rcases List.mem_cons.mp hm with hm | hm
    · rw [hm]
      unfold newerOf
      by_cases hz : zipKeepLeft (verInts r0) (verInts r) = true
      · rw [if_pos hz]
        exact List.mem_cons_self _ _
      · rw [if_neg hz]
        exact List.mem_cons_of_mem _ (List.mem_cons_self _ _)
    · exact List.mem_cons_of_mem _ (List.mem_cons_of_mem _ hm)

/-- C6: for a non-empty list of well-formed `{version}_{arch}`
identifiers, `filter_newest_repos` succeeds and returns exactly the
identifiers whose version string equals that of the winner of the
left-biased fold of the component-wise comparison (dot-separated
integer components compared left to right, first difference decides,
ties and exhausted common prefixes keep the left operand); the winner
is an element of the input. -/
theorem c6_filter_newest_repos (repos : List String) (hne : repos ≠ [])
    (hwf : ∀ r ∈ repos, repoWF r) :
    filter_newest_repos repos =
      .ok (repos.filter fun r => decide (repoVersion r = repoVersion (newestRepo repos))) ∧
    newestRepo repos ∈ repos := by
  obtain ⟨r0, rest, rfl⟩ := List.exists_cons_of_ne_nil hne
  have h0 : ∀ o ∈ ver_nos r0, o.isSome := (hwf r0 (List.mem_cons_self _ _)).2
  have hrs : ∀ r ∈ rest, ∀ o ∈ ver_nos r, o.isSome :=
    fun r hr o ho => (hwf r (List.mem_cons_of_mem _ hr)).2 o ho
  have hwin : newestRepo (r0 :: rest) ∈ r0 :: rest := newestRepo_mem rest r0
  refine ⟨?_, hwin⟩
  have hred : filter_newest_repos (r0 :: rest) =
      (rest.foldlM (fun acc r => cmp_repo_version acc r) r0).bind (fun winner =>
        pure ((r0 :: rest).filter fun repo =>
          pyStartsWith repo ((pySplitC winner '_').headD "" ++ "_"))) := rfl
  rw [hred, foldM_cmp rest r0 h0 hrs]
  show Except.ok ((r0 :: rest).filter fun repo =>
      pyStartsWith repo ((pySplitC (rest.foldl newerOf r0) '_').headD "" ++ "_")) = _
  have hfc : ((r0 :: rest).filter fun repo =>
      pyStartsWith repo (repoVersion (newestRepo (r0 :: rest)) ++ "_")) =
      ((r0 :: rest).filter fun r =>
        decide (repoVersion r = repoVersion (newestRepo (r0 :: rest)))) := by
    apply List.filter_congr
    intro r hrmem
    exact startsWith_iff_sameVersion r (newestRepo (r0 :: rest))
      (hwf r hrmem).1 (hwf (newestRepo (r0 :: rest)) hwin).1
  exact congrArg Except.ok hfc

/-- C6 (witness): the spec's own example — versions `4.5.0.24` and
`4.4.0.72` across two architectures — returns exactly the two
newest-version identifiers. -/
theorem c6_filter_newest_repos_witness :
    (["4.5.0.24_i486", "4.5.0.24_aarch64", "4.4.0.72_i486"] : List String) ≠ [] ∧
    (∀ r ∈ (["4.5.0.24_i486", "4.5.0.24_aarch64", "4.4.0.72_i486"] : List String), repoWF r) ∧
    filter_newest_repos ["4.5.0.24_i486", "4.5.0.24_aarch64", "4.4.0.72_i486"] =
      .ok ["4.5.0.24_i486", "4.5.0.24_aarch64"] := by
  have hne : (["4.5.0.24_i486", "4.5.0.24_aarch64", "4.4.0.72_i486"] : List String) ≠ [] := by
    decide
  have hwf : ∀ r ∈ (["4.5.0.24_i486", "4.5.0.24_aarch64", "4.4.0.72_i486"] : List String),
      repoWF r := by
    intro r hr
    simp only [List.mem_cons, List.not_mem_nil, or_false] at hr
    rcases hr with rfl | rfl | rfl <;> exact ⟨by decide, by decide⟩
  refine ⟨hne, hwf, ?_⟩
  rw [(c6_filter_newest_repos _ hne hwf).1]
  rfl

/-! ## C7: debug-package linking -/

/-- The key list of a by-name package map. -/
def keysOf (m : List (String × Package)) : List String :=
  m.map Prod.fst

/-- Every stored package carries its own key as `name` — the invariant
`read_repo_data` establishes by keying the dict on `pkg.name`. -/
def namesConsistent (m : List (String × Package)) : Prop :=
  ∀ kv ∈ m, Package.name kv.2 = some kv.1

theorem stringDataInj (s t : String) (h : s.data = t.data) : s = t := by
  cases s
  cases t
  simp only at h
  rw [h]

theorem dictGet_isSome_of_mem (m : List (String × Package)) (k : String)
    (h : k ∈ keysOf m) : ∃ v, dictGet m k = some v := by
  induction m with
  | nil => simp [keysOf] at h
  | cons kv rest ih =>
    obtain ⟨k1, v1⟩ := kv
    by_cases h1 : k1 = k
    · exact ⟨v1, by simp [dictGet, h1]⟩
    · have h2 : k ∈ keysOf rest := by
        simp only [keysOf, List.map_cons, List.mem_cons] at h
        rcases h with h | h
        · exact absurd h.symm h1
        · exact h
      obtain ⟨v, hv⟩ := ih h2
      exact ⟨v, by simp [dictGet, h1, hv]⟩

theorem dictGet_mem (m : List (String × Package)) (k : String) (v : Package)
    (h : dictGet m k = some v) : (k, v) ∈ m := by
  induction m with
  | nil => simp [dictGet] at h
  | cons kv rest ih =>
    obtain ⟨k1, v1⟩ := kv
    by_cases h1 : k1 = k
    · subst h1
      simp only [dictGet, if_pos rfl] at h
      simp [← Option.some.inj h]
    · simp only [dictGet, if_neg h1] at h
      exact List.mem_cons_of_mem _ (ih h)

theorem dictGet_none (m : List (String × Package)) (k : String)
    (h : k ∉ keysOf m) : dictGet m k = none := by
  induction m with
  | nil => rfl
  | cons kv rest ih =>
    obtain ⟨k1, v1⟩ := kv
    have h1 : ¬ (k1 = k) := fun hh => h (by simp [keysOf, hh])
    have h2 : k ∉ keysOf rest := fun hh => h (by simp [keysOf] at hh ⊢; exact Or.inr hh)
    simp [dictGet, h1, ih h2]

theorem dse_keys (m : List (String × Package)) (k : String) (v : Package) :
    keysOf (dictSetExisting m k v) = keysOf m := by
  induction m with
  | nil => rfl
  | cons kv rest ih =>
    obtain ⟨k1, v1⟩ := kv
    by_cases h1 : k1 = k
    · subst h1
      simp [dictSetExisting, keysOf]
    · simp [dictSetExisting, h1, keysOf]
      exact ih

theorem dictGet_dse_self (m : List (String × Package)) (k : String) (v : Package)
    (h : k ∈ keysOf m) : dictGet (dictSetExisting m k v) k = some v := by
  induction m with
  | nil => simp [keysOf] at h
  | cons kv rest ih =>
    obtain ⟨k1, v1⟩ := kv
    by_cases h1 : k1 = k
    · subst h1
      simp [dictSetExisting, dictGet]
    · have h2 : k ∈ keysOf rest := by
        simp only [keysOf, List.map_cons, List.mem_cons] at h
        rcases h with h | h
        · exact absurd h.symm h1
        · exact h
      simp [dictSetExisting, dictGet, h1, ih h2]

theorem dictGet_dse_ne (m : List (String × Package)) (k j : String) (v : Package)
    (h : j ≠ k) : dictGet (dictSetExisting m k v) j = dictGet m j := by
  induction m with
  | nil => rfl
  | cons kv rest ih =>
    obtain ⟨k1, v1⟩ := kv
    by_cases h1 : k1 = k
    · subst h1
      have hkj : ¬ (k1 = j) := fun hh => h hh.symm
      simp [dictSetExisting, dictGet, hkj]
    · by_cases h2 : k1 = j
      · subst h2
        simp [dictSetExisting, dictGet, h1]
      · simp [dictSetExisting, dictGet, h1, h2, ih]

theorem mem_dse (m : List (String × Package)) (k : String) (v : Package)
    (kv : String × Package) : kv ∈ dictSetExisting m k v → kv ∈ m ∨ kv = (k, v) := by
  induction m with
  | nil => intro h; simp [dictSetExisting] at h
  | cons kv1 rest ih =>
    obtain ⟨k1, v1⟩ := kv1
    intro h
    by_cases h1 : k1 = k
    · subst h1
      unfold dictSetExisting at h
      rw [if_pos rfl] at h
      rcases List.mem_cons.mp h with h | h
      · exact Or.inr h
      · exact Or.inl (List.mem_cons_of_mem _ h)
    · unfold dictSetExisting at h
      rw [if_neg h1] at h
      rcases List.mem_cons.mp h with h | h
      · exact Or.inl (h ▸ List.mem_cons_self _ _)
      · rcases ih h with h2 | h2
        · exact Or.inl (List.mem_cons_of_mem _ h2)
        · exact Or.inr h2

theorem name_withDebugInfo (p dbg : Package) : (p.withDebugInfo dbg).name = p.name := by
  cases p
  rfl

theorem name_withDebugSource (p dbg : Package) : (p.withDebugSource dbg).name = p.name := by
  cases p
  rfl

theorem debuginfo_withDebugInfo (p dbg : Package) :
    (p.withDebugInfo dbg).debuginfo_package = some dbg := by
  cases p
  rfl

theorem debugsource_withDebugSource (p dbg : Package) :
    (p.withDebugSource dbg).debugsource_package = some dbg := by
  cases p
  rfl

theorem debuginfo_withDebugSource (p dbg : Package) :
    (p.withDebugSource dbg).debuginfo_package = p.debuginfo_package := by
  cases p
  rfl

theorem debugsource_withDebugInfo (p dbg : Package) :
    (p.withDebugInfo dbg).debugsource_package = p.debugsource_package := by
  cases p
  rfl

theorem pyDropSuf_data (s suf : String) (h : pyEndsWith s suf = true) :
    s.data = (pyDropSuf s suf).data ++ suf.data := by
  unfold pyEndsWith at h
  obtain ⟨t, ht⟩ := (List.isSuffixOf_iff_suffix.mp h)
  unfold pyDropSuf
  rw [if_pos (by unfold pyEndsWith; exact h)]
  have hlen : s.data.length - suf.data.length = t.length := by
    rw [← ht, List.length_append]
    omega
  simp only [hlen]
  rw [← ht, List.take_left]

theorem pyDropSuf_inj (j k suf : String) (hj : pyEndsWith j suf = true)
    (hk : pyEndsWith k suf = true) (h : pyDropSuf j suf = pyDropSuf k suf) : j = k := by
  apply stringDataInj
  rw [pyDropSuf_data j suf hj, pyDropSuf_data k suf hk, h]

theorem not_both_suffixes (k : String) :
    ¬ (pyEndsWith k "-debuginfo" = true ∧ pyEndsWith k "-debugsource" = true) := by
  rintro ⟨h1, h2⟩
  have hd1 := pyDropSuf_data k "-debuginfo" h1
  have hd2 := pyDropSuf_data k "-debugsource" h2
  have hlast : k.data.getLast? = some 'o' := by
    rw [hd1, List.getLast?_append]
    rfl
  have hlast2 : k.data.getLast? = some 'e' := by
    rw [hd2, List.getLast?_append]
    rfl
  rw [hlast] at hlast2
  exact absurd (Option.some.inj hlast2) (by decide)

/-- The base package reachable by stripping `-debuginfo` from `k` holds
a `debuginfo_package` reference whose `name` is `k`. -/
def linkedInfo (m : List (String × Package)) (k : String) : Prop :=
  ∃ bp dp, dictGet m (pyDropSuf k "-debuginfo") = some bp ∧
    bp.debuginfo_package = some dp ∧ dp.name = some k

/-- The base package reachable by stripping `-debugsource` from `k`
holds a `debugsource_package` reference whose `name` is `k`. -/
def linkedSource (m : List (String × Package)) (k : String) : Prop :=
  ∃ bp dp, dictGet m (pyDropSuf k "-debugsource") = some bp ∧
    bp.debugsource_package = some dp ∧ dp.name = some k

theorem linkStep_ok_result (m : List (String × Package)) (k0 : String)
    (hnc : namesConsistent m) (hk : k0 ∈ keysOf m)
    (hbi : pyEndsWith k0 "-debuginfo" = true → pyDropSuf k0 "-debuginfo" ∈ keysOf m)
    (hbs : pyEndsWith k0 "-debugsource" = true → pyDropSuf k0 "-debugsource" ∈ keysOf m) :
    ∃ m', linkStep m k0 = .ok m' ∧ keysOf m' = keysOf m ∧ namesConsistent m' ∧
      (∀ j, pyEndsWith j "-debuginfo" = true → linkedInfo m j → linkedInfo m' j) ∧
      (∀ j, pyEndsWith j "-debugsource" = true → linkedSource m j → linkedSource m' j) ∧
      (pyEndsWith k0 "-debuginfo" = true → linkedInfo m' k0) ∧
      (pyEndsWith k0 "-debugsource" = true → linkedSource m' k0) := by
  obtain ⟨pkg, hpkg⟩ := dictGet_isSome_of_mem m k0 hk
  have hpkgname : pkg.name = some k0 := hnc (k0, pkg) (dictGet_mem m k0 pkg hpkg)
  by_cases hdi : pyEndsWith k0 "-debuginfo" = true
  · have hbase_mem := hbi hdi
    obtain ⟨base, hbase⟩ := dictGet_isSome_of_mem m _ hbase_mem
    have hstep : linkStep m k0 =
        .ok (dictSetExisting m (pyDropSuf k0 "-debuginfo") (base.withDebugInfo pkg)) := by
      simp only [linkStep, hpkg, hdi, if_true, hbase]
    refine ⟨_, hstep, dse_keys _ _ _, ?_, ?_, ?_, ?_, ?_⟩
    · intro kv hmem
      rcases mem_dse _ _ _ _ hmem with hm | hm
      · exact hnc kv hm
      · rw [hm]
        show Package.name (base.withDebugInfo pkg) = some (pyDropSuf k0 "-debuginfo")
        rw [name_withDebugInfo]
        exact hnc (pyDropSuf k0 "-debuginfo", base) (dictGet_mem m _ base hbase)
    · rintro j hj ⟨bp, dp, hbp, hdp, hdn⟩
      by_cases hjb : pyDropSuf j "-debuginfo" = pyDropSuf k0 "-debuginfo"
      · have hjk : j = k0 := pyDropSuf_inj j k0 _ hj hdi hjb
        subst hjk
        exact ⟨base.withDebugInfo pkg, pkg,
          by rw [dictGet_dse_self _ _ _ hbase_mem],
          debuginfo_withDebugInfo _ _, hpkgname⟩
      · exact ⟨bp, dp, by rw [dictGet_dse_ne _ _ _ _ hjb]; exact hbp, hdp, hdn⟩
    · rintro j hj ⟨bp, dp, hbp, hdp, hdn⟩
      by_cases hjb : pyDropSuf j "-debugsource" = pyDropSuf k0 "-debuginfo"
      · have hbp2 : dictGet m (pyDropSuf j "-debugsource") = some base := by
          rw [hjb]
          exact hbase
        have hbpbase : bp = base := Option.some.inj (hbp.symm.trans hbp2)
        refine ⟨base.withDebugInfo pkg, dp, ?_, ?_, hdn⟩
        · rw [hjb, dictGet_dse_self _ _ _ hbase_mem]
        · rw [debugsource_withDebugInfo, ← hbpbase]
          exact hdp
      · exact ⟨bp, dp, by rw [dictGet_dse_ne _ _ _ _ hjb]; exact hbp, hdp, hdn⟩
    · intro _
      exact ⟨base.withDebugInfo pkg, pkg,
        by rw [dictGet_dse_self _ _ _ hbase_mem], debuginfo_withDebugInfo _ _, hpkgname⟩
    · intro hds
      exact absurd ⟨hdi, hds⟩ (not_both_suffixes k0)
  · by_cases hds : pyEndsWith k0 "-debugsource" = true
    · have hbase_mem := hbs hds
      obtain ⟨base, hbase⟩ := dictGet_isSome_of_mem m _ hbase_mem
      have hstep : linkStep m k0 =
          .ok (dictSetExisting m (pyDropSuf k0 "-debugsource") (base.withDebugSource pkg)) := by
        have hdif : pyEndsWith k0 "-debuginfo" = false := by
          revert hdi
          cases pyEndsWith k0 "-debuginfo" <;> simp
        simp only [linkStep, hpkg, hdif, hds, if_true, Bool.false_eq_true, if_false, hbase]
      refine ⟨_, hstep, dse_keys _ _ _, ?_, ?_, ?_, ?_, ?_⟩
      · intro kv hmem
        rcases mem_dse _ _ _ _ hmem with hm | hm
        · exact hnc kv hm
        · rw [hm]
          show Package.name (base.withDebugSource pkg) = some (pyDropSuf k0 "-debugsource")
          rw [name_withDebugSource]
          exact hnc (pyDropSuf k0 "-debugsource", base) (dictGet_mem m _ base hbase)
      · rintro j hj ⟨bp, dp, hbp, hdp, hdn⟩
        by_cases hjb : pyDropSuf j "-debuginfo" = pyDropSuf k0 "-debugsource"
        · have hbp2 : dictGet m (pyDropSuf j "-debuginfo") = some base := by
            rw [hjb]
            exact hbase
          have hbpbase : bp = base := Option.some.inj (hbp.symm.trans hbp2)
          refine ⟨base.withDebugSource pkg, dp, ?_, ?_, hdn⟩
          · rw [hjb, dictGet_dse_self _ _ _ hbase_mem]
          · rw [debuginfo_withDebugSource, ← hbpbase]
            exact hdp
        · exact ⟨bp, dp, by rw [dictGet_dse_ne _ _ _ _ hjb]; exact hbp, hdp, hdn⟩
      · rintro j hj ⟨bp, dp, hbp, hdp, hdn⟩
        by_cases hjb : pyDropSuf j "-debugsource" = pyDropSuf k0 "-debugsource"
        · have hjk : j = k0 := pyDropSuf_inj j k0 _ hj hds hjb
          subst hjk
          exact ⟨base.withDebugSource pkg, pkg,
            by rw [dictGet_dse_self _ _ _ hbase_mem],
            debugsource_withDebugSource _ _, hpkgname⟩
        · exact ⟨bp, dp, by rw [dictGet_dse_ne _ _ _ _ hjb]; exact hbp, hdp, hdn⟩
      · intro hdi2
        exact absurd hdi2 hdi
      · intro _
        exact ⟨base.withDebugSource pkg, pkg,
          by rw [dictGet_dse_self _ _ _ hbase_mem], debugsource_withDebugSource _ _, hpkgname⟩
    · have hstep : linkStep m k0 = .ok m := by
        have hdif : pyEndsWith k0 "-debuginfo" = false := by
          revert hdi
          cases pyEndsWith k0 "-debuginfo" <;> simp
        have hdsf : pyEndsWith k0 "-debugsource" = false := by
          revert hds
          cases pyEndsWith k0 "-debugsource" <;> simp
        simp only [linkStep, hpkg, hdif, hdsf, Bool.false_eq_true, if_false]
      exact ⟨m, hstep, rfl, hnc, fun j _ h => h, fun j _ h => h,
             fun h => absurd h hdi, fun h => absurd h hds⟩

theorem linkStep_keys (m : List (String × Package)) (k0 : String)
    (m' : List (String × Package)) (h : linkStep m k0 = .ok m') : keysOf m' = keysOf m := by
  unfold linkStep at h
  repeat' split at h
  all_goals
    first
      | exact Except.noConfusion h
      | (injection h with h1; rw [← h1]; exact dse_keys _ _ _)
      | (injection h with h1; rw [← h1])

theorem linkStep_error_shape (m : List (String × Package)) (k0 : String) (e : PyErr)
    (h : linkStep m k0 = .error e) : e = PyErr.keyError := by
  unfold linkStep at h
  repeat' split at h
  all_goals
    first
      | exact Except.noConfusion h
      | (injection h with h1; exact h1.symm)

theorem linkStep_err (m : List (String × Package)) (k0 : String) (hk : k0 ∈ keysOf m)
    (hbad : (pyEndsWith k0 "-debuginfo" = true ∧ pyDropSuf k0 "-debuginfo" ∉ keysOf m) ∨
            (pyEndsWith k0 "-debugsource" = true ∧ pyDropSuf k0 "-debugsource" ∉ keysOf m)) :
    linkStep m k0 = .error .keyError := by
  obtain ⟨pkg, hpkg⟩ := dictGet_isSome_of_mem m k0 hk
  rcases hbad with ⟨hdi, hnb⟩ | ⟨hds, hnb⟩
  · simp only [linkStep, hpkg, hdi, if_true, dictGet_none _ _ hnb]
  · have hdif : pyEndsWith k0 "-debuginfo" = false := by
      rcases Bool.eq_false_or_eq_true (pyEndsWith k0 "-debuginfo") with h2 | h2
      · exact absurd ⟨h2, hds⟩ (not_both_suffixes k0)
      · exact h2
    simp only [linkStep, hpkg, hdif, Bool.false_eq_true, if_false, hds, if_true,
      dictGet_none _ _ hnb]

theorem linkGo_ok (ks : List String) : ∀ m : List (String × Package),
    namesConsistent m → (∀ k ∈ ks, k ∈ keysOf m) →
    (∀ k ∈ ks, (pyEndsWith k "-debuginfo" = true → pyDropSuf k "-debuginfo" ∈ keysOf m) ∧
               (pyEndsWith k "-debugsource" = true → pyDropSuf k "-debugsource" ∈ keysOf m)) →
    ∃ m', ks.foldlM linkStep m = .ok m' ∧ keysOf m' = keysOf m ∧
      (∀ j, pyEndsWith j "-debuginfo" = true → linkedInfo m j → linkedInfo m' j) ∧
      (∀ j, pyEndsWith j "-debugsource" = true → linkedSource m j → linkedSource m' j) ∧
      (∀ k ∈ ks, (pyEndsWith k "-debuginfo" = true → linkedInfo m' k) ∧
                 (pyEndsWith k "-debugsource" = true → linkedSource m' k)) := by
  induction ks with
  | nil =>
    intro m hnc _ _
    exact ⟨m, rfl, rfl, fun j _ h => h, fun j _ h => h, by simp⟩
  | cons k0 ks ih =>
    intro m hnc hkeys hbases
    obtain ⟨m1, hstep, hk1, hnc1, hpi1, hps1, hfi1, hfs1⟩ :=
      linkStep_ok_result m k0 hnc (hkeys k0 (List.mem_cons_self _ _))
        (hbases k0 (List.mem_cons_self _ _)).1 (hbases k0 (List.mem_cons_self _ _)).2
    obtain ⟨m', hfold, hk', hpi', hps', hlink'⟩ :=
      ih m1 hnc1
        (fun k hkmem => hk1 ▸ hkeys k (List.mem_cons_of_mem _ hkmem))
        (fun k hkmem =>
          ⟨fun h => hk1 ▸ (hbases k (List.mem_cons_of_mem _ hkmem)).1 h,
           fun h => hk1 ▸ (hbases k (List.mem_cons_of_mem _ hkmem)).2 h⟩)
    refine ⟨m', ?_, hk'.trans hk1, ?_, ?_, ?_⟩
    · have hred : (k0 :: ks).foldlM linkStep m =
          (linkStep m k0).bind (fun mm => ks.foldlM linkStep mm) := rfl
      rw [hred, hstep]
      exact hfold
    · exact fun j hj h => hpi' j hj (hpi1 j hj h)
    · exact fun j hj h => hps' j hj (hps1 j hj h)
    · intro k hkmem
      rcases List.mem_cons.mp hkmem with rfl | hkmem
      · exact ⟨fun h => hpi' k h (hfi1 h), fun h => hps' k h (hfs1 h)⟩
      · exact hlink' k hkmem

theorem linkGo_err (ks : List String) : ∀ m : List (String × Package),
    (∀ k ∈ ks, k ∈ keysOf m) →
    (∃ k ∈ ks, (pyEndsWith k "-debuginfo" = true ∧ pyDropSuf k "-debuginfo" ∉ keysOf m) ∨
               (pyEndsWith k "-debugsource" = true ∧ pyDropSuf k "-debugsource" ∉ keysOf m)) →
    ks.foldlM linkStep m = .error .keyError := by
  induction ks with
  | nil =>
    intro m _ hbad
    obtain ⟨k, hk, -⟩ := hbad
    simp at hk
  | cons k0 ks ih =>
    intro m hkeys hbad
    have hred : (k0 :: ks).foldlM linkStep m =
        (linkStep m k0).bind (fun mm => ks.foldlM linkStep mm) := rfl
    obtain ⟨k, hkmem, hbadk⟩ := hbad
    rcases List.mem_cons.mp hkmem with rfl | hkmem
    · rw [hred, linkStep_err m k (hkeys k (List.mem_cons_self _ _)) hbadk]
      rfl
    · cases hstep : linkStep m k0 with
      | error e =>
        rw [hred, hstep, linkStep_error_shape m k0 e hstep]
        rfl
      | ok m1 =>
        have hkeq := linkStep_keys m k0 m1 hstep
        rw [hred, hstep]
        show ks.foldlM linkStep m1 = _
        apply ih m1
        · intro k2 hk2
          rw [hkeq]
          exact hkeys k2 (List.mem_cons_of_mem _ hk2)
        · refine ⟨k, hkmem, ?_⟩
          rcases hbadk with ⟨h1, h2⟩ | ⟨h1, h2⟩
          · exact Or.inl ⟨h1, by rw [hkeq]; exact h2⟩
          · exact Or.inr ⟨h1, by rw [hkeq]; exact h2⟩

/-- C7: on a by-name package map of one architecture whose values carry
their key as `name` (as `read_repo_data` builds it), the linking pass
`link_debug_packages`: (a) when every `-debuginfo`/`-debugsource` name
has its base name in the map, succeeds, and afterwards each such base
package's `debuginfo_package` (resp. `debugsource_package`) reference
is a record named after the debug package; (b) when some debug-suffixed
name has no base in the map, raises `KeyError` — the pass fails
fatally, it does not recover. -/
theorem c7_link_debug_packages (m : List (String × Package)) (hnc : namesConsistent m) :
    ((∀ k ∈ keysOf m,
        (pyEndsWith k "-debuginfo" = true → pyDropSuf k "-debuginfo" ∈ keysOf m) ∧
        (pyEndsWith k "-debugsource" = true → pyDropSuf k "-debugsource" ∈ keysOf m)) →
      ∃ m', link_debug_packages m = .ok m' ∧
        (∀ k ∈ keysOf m, pyEndsWith k "-debuginfo" = true →
          ∃ bp dp, dictGet m' (pyDropSuf k "-debuginfo") = some bp ∧
            bp.debuginfo_package = some dp ∧ dp.name = some k) ∧
        (∀ k ∈ keysOf m, pyEndsWith k "-debugsource" = true →
          ∃ bp dp, dictGet m' (pyDropSuf k "-debugsource") = some bp ∧
            bp.debugsource_package = some dp ∧ dp.name = some k)) ∧
    ((∃ k ∈ keysOf m,
        (pyEndsWith k "-debuginfo" = true ∧ pyDropSuf k "-debuginfo" ∉ keysOf m) ∨
        (pyEndsWith k "-debugsource" = true ∧ pyDropSuf k "-debugsource" ∉ keysOf m)) →
      link_debug_packages m = .error .keyError) := by
  constructor
  · intro hbases
    obtain ⟨m', hfold, hkeys', hpi, hps, hlink⟩ :=
      linkGo_ok (keysOf m) m hnc (fun k hk => hk) hbases
    refine ⟨m', hfold, ?_, ?_⟩
    · intro k hk hdi
      exact (hlink k hk).1 hdi
    · intro k hk hds
      exact (hlink k hk).2 hds
  · intro hbad
    exact linkGo_err (keysOf m) m (fun k hk => hk) hbad

/-- The three-package map of the spec example:
`foo`, `foo-debuginfo`, `foo-debugsource`. -/
def demoPkg (n : String) : Package :=
  Package.mk { name := some n } none none

def demoMap : List (String × Package) :=
  [("foo", demoPkg "foo"), ("foo-debuginfo", demoPkg "foo-debuginfo"),
   ("foo-debugsource", demoPkg "foo-debugsource")]

/-- C7 (witness): on the spec's example map, linking succeeds and wires
both debug references of `foo` to records carrying the expected names. -/
theorem c7_link_debug_packages_witness :
    namesConsistent demoMap ∧
    (∃ m', link_debug_packages demoMap = .ok m' ∧
      (∃ bp dp, dictGet m' "foo" = some bp ∧
        bp.debuginfo_package = some dp ∧ dp.name = some "foo-debuginfo") ∧
      (∃ bp dp, dictGet m' "foo" = some bp ∧
        bp.debugsource_package = some dp ∧ dp.name = some "foo-debugsource")) := by
  have hnc : namesConsistent demoMap := by
    intro kv hkv
    simp only [demoMap, List.mem_cons, List.not_mem_nil, or_false] at hkv
    rcases hkv with rfl | rfl | rfl <;> rfl
  refine ⟨hnc, ?_⟩
  have hbases : ∀ k ∈ keysOf demoMap,
      (pyEndsWith k "-debuginfo" = true → pyDropSuf k "-debuginfo" ∈ keysOf demoMap) ∧
      (pyEndsWith k "-debugsource" = true → pyDropSuf k "-debugsource" ∈ keysOf demoMap) := by
    intro k hk
    simp only [demoMap, keysOf, List.map_cons, List.map_nil, List.mem_cons,
      List.not_mem_nil, or_false] at hk
    rcases hk with rfl | rfl | rfl <;> exact ⟨fun h => by revert h; decide, fun h => by revert h; decide⟩
  obtain ⟨m', hok, hinfo, hsource⟩ := (c7_link_debug_packages demoMap hnc).1 hbases
  refine ⟨m', hok, ?_, ?_⟩
  · have := hinfo "foo-debuginfo" (by decide) (by decide)
    exact this
  · have := hsource "foo-debugsource" (by decide) (by decide)
    exact this

/-! ## C10: changelog attachment aborts on unknown names -/

theorem attachGo_ok (others : List (String × List ChangelogEntry)) :
    ∀ m : List (String × Package), (∀ ne ∈ others, ne.1 ∈ keysOf m) →
    ∃ m', attach_changelogs m others = .ok m' := by
  induction others with
  | nil => intro m _; exact ⟨m, rfl⟩
  | cons ne os ih =>
    intro m h
    obtain ⟨p, hp⟩ := dictGet_isSome_of_mem m ne.1 (h ne (List.mem_cons_self _ _))
    obtain ⟨pd, pdi, pds⟩ := p
    have hred : attach_changelogs m (ne :: os) =
        (match dictGet m ne.1 with
         | none => (Except.error PyErr.keyError : Except PyErr (List (String × Package)))
         | some p =>
           match p with
           | .mk d di ds =>
             .ok (dictSetExisting m ne.1
               (.mk { d with changelog_entries := some ne.2 } di ds))).bind
          (fun m1 => attach_changelogs m1 os) := rfl
    obtain ⟨m', hfold⟩ :=
      ih (dictSetExisting m ne.1 (.mk { pd with changelog_entries := some ne.2 } pdi pds))
        (fun x hx => by rw [dse_keys]; exact h x (List.mem_cons_of_mem _ hx))
    refine ⟨m', ?_⟩
    rw [hred, hp]
    exact hfold

theorem attachGo_err (others : List (String × List ChangelogEntry)) :
    ∀ m : List (String × Package), (∃ ne ∈ others, ne.1 ∉ keysOf m) →
    attach_changelogs m others = .error .keyError := by
  induction others with
  | nil =>
    intro m hbad
    obtain ⟨x, hx, -⟩ := hbad
    simp at hx
  | cons ne os ih =>
    intro m hbad
    have hred : attach_changelogs m (ne :: os) =
        (match dictGet m ne.1 with
         | none => (Except.error PyErr.keyError : Except PyErr (List (String × Package)))
         | some p =>
           match p with
           | .mk d di ds =>
             .ok (dictSetExisting m ne.1
               (.mk { d with changelog_entries := some ne.2 } di ds))).bind
          (fun m1 => attach_changelogs m1 os) := rfl
    by_cases hne : ne.1 ∈ keysOf m
    · obtain ⟨p, hp⟩ := dictGet_isSome_of_mem m ne.1 hne
      obtain ⟨pd, pdi, pds⟩ := p
      obtain ⟨x, hxmem, hxbad⟩ := hbad
      rcases List.mem_cons.mp hxmem with rfl | hxmem
      · exact absurd hne hxbad
      · rw [hred, hp]
        exact ih (dictSetExisting m ne.1
            (.mk { pd with changelog_entries := some ne.2 } pdi pds))
          ⟨x, hxmem, by rw [dse_keys]; exact hxbad⟩
    · rw [hred, dictGet_none m ne.1 hne]
      rfl

/-- C10: `read_repo_data` indexes the primary map directly by each
changelog name: attachment over `other.xml` succeeds (returns an updated
map) when every name occurs in the primary map, and raises `KeyError` —
aborting the repository parse — as soon as some name is absent from it. -/
theorem c10_attach_changelogs (pkgs : List (String × Package))
    (others : List (String × List ChangelogEntry)) :
    ((∀ ne ∈ others, ne.1 ∈ keysOf pkgs) →
      ∃ m', attach_changelogs pkgs others = .ok m') ∧
    ((∃ ne ∈ others, ne.1 ∉ keysOf pkgs) →
      attach_changelogs pkgs others = .error .keyError) :=
  ⟨attachGo_ok others pkgs, attachGo_err others pkgs⟩

def c10Pkg : Package := .mk { name := some "foo" } none none

def c10Map : List (String × Package) := [("foo", c10Pkg)]

def c10Entry : ChangelogEntry :=
  { date := some "2024-01-01", author := some "jane", text := some "initial release" }

theorem c10_attach_changelogs_witness :
    (∃ m', attach_changelogs c10Map [("foo", [c10Entry])] = .ok m') ∧
    attach_changelogs c10Map [("bar", [c10Entry])] = .error .keyError := by
  refine ⟨(c10_attach_changelogs c10Map [("foo", [c10Entry])]).1 ?_,
          (c10_attach_changelogs c10Map [("bar", [c10Entry])]).2 ?_⟩
  · intro ne hne
    rcases List.mem_cons.mp hne with rfl | hne
    · decide
    · simp at hne
  · exact ⟨("bar", [c10Entry]), List.mem_cons_self _ _, by decide⟩

/-! ## C4 witness fixture -/

def c4PkgA : Package := .mk
  { name := some "app",
    repos := ["4.5.0.24_i486"], archs := [some "i486"],
    download_size := [(some "i486", some "1000")],
    install_size := [(some "i486", some "2000")],
    download_url := [(some "i486", some "https://r/a.rpm")],
    checksum_type := [(some "i486", some "sha256")],
    checksum_value := [(some "i486", some "aa")] } none none

def c4PkgB : Package := .mk
  { name := some "app",
    repos := ["4.5.0.24_aarch64"], archs := [some "aarch64"],
    download_size := [(some "aarch64", some "1100")],
    install_size := [(some "aarch64", some "2100")],
    download_url := [(some "aarch64", some "https://r/b.rpm")],
    checksum_type := [(some "aarch64", some "sha256")],
    checksum_value := [(some "aarch64", some "bb")] } none none

theorem c4_merge_arch_idempotent_witness :
    (∀ a ∈ c4PkgB.data.archs, archPresent c4PkgB.data a) ∧
    ((c4PkgA.merge_arch c4PkgB).2 = none ∧
     ((c4PkgA.merge_arch c4PkgB).1).merge_arch c4PkgB =
       ((c4PkgA.merge_arch c4PkgB).1, none)) := by
  have h : ∀ a ∈ c4PkgB.data.archs, archPresent c4PkgB.data a := by
    intro a ha
    have harchs : c4PkgB.data.archs = [some "aarch64"] := rfl
    rw [harchs] at ha
    have ha' := List.mem_singleton.mp ha
    subst ha'
    exact ⟨rfl, rfl, rfl, rfl, rfl⟩
  exact ⟨h, c4_merge_arch_idempotent c4PkgA c4PkgB h⟩
